import Mathlib

/-!
Verification development for the imgStore storage engine
(header + fixed-size metadata slot table + append-only byte heap).

The C sources are shallowly embedded as pure Lean functions:

* bytes are modelled as `List Nat`;
* `uint32` fields written by the code are reduced modulo `U32 = 2^32`
  where the C stores into a 32-bit field;
* a C function that mutates `imgst_file*` and returns an error code is
  modelled as a function `ImgstFile -> Err × ImgstFile`, so the state at
  an error return is the (possibly partially mutated) state, exactly as
  in C;
* the backing file is modelled semantically as a disk header, a disk
  slot table and the heap byte list; `fseek`/`fwrite`/`fread` on the
  heap turn into list operations on `heap` at absolute offsets relative
  to `heapStart` (header block + full slot table region);
* the external capabilities (SHA256, the VIPS codec) are opaque in the
  source (`error.h`, openssl and vips are not part of this repository),
  so they are parameters: `hash`, `getRes` (vips_jpegload_buffer header
  decode), `resizeEnc` (vips_resize + vips_jpegsave_buffer).
-/

namespace ImgStore

/-! ## Constants (imgStore.h) -/

/-- imgStore.h: RES_THUMB -/
def RES_THUMB : Nat := 0
/-- imgStore.h: RES_SMALL -/
def RES_SMALL : Nat := 1
/-- imgStore.h: RES_ORIG -/
def RES_ORIG : Nat := 2
/-- imgStore.h: NB_RES -/
def NB_RES : Nat := 3
/-- imgStore.h: MAX_IMG_ID -/
def MAX_IMG_ID : Nat := 127
/-- imgStore.h: CAT_TXT, the header name written by do_create -/
def CAT_TXT : String := "EPFL ImgStore binary"

/-- Modulus of the `uint32_t` fields of the on-disk structures. -/
def U32 : Nat := 2 ^ 32

/-- Byte size of `struct imgst_header` (32 + 4 + 4 + 4 + 8 + 4 + 8). -/
def HEADER_SIZE : Nat := 64
/-- Byte size of `struct img_metadata` (128 + 32 + 8 + 12 + 24 + 2 + 2). -/
def METADATA_SIZE : Nat := 208

/-! ## Error codes (error.h is not part of src/; the codes are modelled
from their use sites in the C sources: ERR_NONE, ERR_IO,
ERR_OUT_OF_MEMORY, ERR_RESOLUTIONS, ERR_FULL_IMGSTORE, ERR_DUPLICATE_ID,
ERR_INVALID_ARGUMENT, ERR_FILE_NOT_FOUND, ERR_IMGLIB, ERR_INVALID_IMGID). -/

/-- Error codes returned by the imgStore library functions.
`ok` is ERR_NONE and `ioErr` is ERR_IO; the other names transliterate
the C macro names. -/
inductive Err where
  | ok
  | ioErr
  | outOfMemory
  | resolutions
  | fullImgstore
  | duplicateId
  | invalidArgument
  | fileNotFound
  | imglib
  | invalidImgid
deriving DecidableEq, Repr

/-! ## Data model (imgStore.h structs) -/

/-- One value per resolution code, mirroring the C arrays
`uint32_t size[NB_RES]` / `uint64_t offset[NB_RES]` indexed by
RES_THUMB = 0, RES_SMALL = 1, RES_ORIG = 2. -/
structure ResArr where
  thumb : Nat
  small : Nat
  orig : Nat
deriving DecidableEq, Repr

/-- Array read `a[res]`. -/
def ResArr.get : ResArr → Nat → Nat
  | a, 0 => a.thumb
  | a, 1 => a.small
  | a, _ => a.orig

/-- Array write `a[res] = v`. -/
def ResArr.set : ResArr → Nat → Nat → ResArr
  | a, 0, v => { a with thumb := v }
  | a, 1, v => { a with small := v }
  | a, _, v => { a with orig := v }

/-- struct imgst_header. `res_resized` is the four-entry
`uint16_t res_resized[2 * (NB_RES - 1)]` array
[thumbW, thumbH, smallW, smallH]. -/
structure ImgstHeader where
  imgst_name : String
  imgst_version : Nat
  num_files : Nat
  max_files : Nat
  res_resized : List Nat
deriving DecidableEq, Repr

/-- struct img_metadata. `sha` models the 32-byte `SHA` digest array,
`res_orig_w`/`res_orig_h` the `res_orig[0]`/`res_orig[1]` entries,
`is_valid` the `uint16_t` flag (0 = EMPTY). -/
structure ImgMetadata where
  img_id : String
  sha : List Nat
  res_orig_w : Nat
  res_orig_h : Nat
  size : ResArr
  offset : ResArr
  is_valid : Nat
deriving DecidableEq, Repr

/-- The all-zero metadata record produced by `calloc` (empty id string,
zero digest bytes, zero sizes/offsets, is_valid = EMPTY). -/
def emptyMetadata : ImgMetadata :=
  { img_id := ""
    sha := []
    res_orig_w := 0
    res_orig_h := 0
    size := ⟨0, 0, 0⟩
    offset := ⟨0, 0, 0⟩
    is_valid := 0 }

/-- struct imgst_file together with the contents of the backing file.
`header`/`metadata` are the in-memory mirror; `diskHeader`/`diskSlots`
are the header and slot table currently in the file, and `heap` is the
byte region of the file after the slot table (the image data). -/
structure ImgstFile where
  header : ImgstHeader
  metadata : List ImgMetadata
  diskHeader : ImgstHeader
  diskSlots : List ImgMetadata
  heap : List Nat
deriving DecidableEq, Repr

/-- Absolute file offset at which the heap starts: one header plus
`max_files` slot records. -/
def heapStart (max_files : Nat) : Nat :=
  HEADER_SIZE + METADATA_SIZE * max_files

/-- `ftell` after `fseek(file, 0, SEEK_END)`: the current end of the
file (header + slot table + heap bytes already appended). -/
def fileEnd (f : ImgstFile) : Nat :=
  heapStart f.header.max_files + f.heap.length

/-- `fseek(file, off, SEEK_SET)` followed by `fread(buf, sz, 1, file)`
on the heap region. `fread` returns 1 (success) only when `sz` is
non-zero (fread with size 0 returns 0, which the callers treat as
ERR_IO) and the whole range lies inside the heap. -/
def fileReadAt (f : ImgstFile) (off sz : Nat) : Option (List Nat) :=
  if sz ≠ 0 ∧ heapStart f.header.max_files ≤ off ∧
      off - heapStart f.header.max_files + sz ≤ f.heap.length then
    some ((f.heap.drop (off - heapStart f.header.max_files)).take sz)
  else
    none

/-! ## tools.c -/

/-- tools.c `updateHeader`: seek to offset 0 and overwrite the on-disk
header with the in-memory one. The write itself never fails in the
deterministic file model. -/
def updateHeader (f : ImgstFile) : Err × ImgstFile :=
  (.ok, { f with diskHeader := f.header })

/-- tools.c `updateMetadata`: seek to the slot's offset and overwrite
the on-disk record with the in-memory `metadata[idx]`; fails with
ERR_FILE_NOT_FOUND when `max_files <= idx`. -/
def updateMetadata (idx : Nat) (f : ImgstFile) : Err × ImgstFile :=
  if f.header.max_files ≤ idx then (.fileNotFound, f)
  else (.ok, { f with diskSlots := f.diskSlots.set idx (f.metadata.getD idx emptyMetadata) })

/-- The ascending scan `while (i < max && not (p i)) ++i` common to
`findMetadataIndex` and the free-slot search of `do_insert`: returns
the first index `i <= j < i + fuel` with `p j = true`, and `i + fuel`
when there is none. -/
def scanFrom (p : Nat → Bool) (i fuel : Nat) : Nat :=
  match fuel with
  | 0 => i
  | fuel + 1 => if p i then i else scanFrom p (i + 1) fuel

/-- tools.c `validMetadataIndex`: the index is in range and the slot is
valid (C reports ERR_INVALID_ARGUMENT otherwise; the boolean result is
mapped back to that error code at the call sites). -/
def validMetadataIndex (idx : Nat) (f : ImgstFile) : Bool :=
  idx < f.header.max_files && !((f.metadata.getD idx emptyMetadata).is_valid == 0)

/-- tools.c `findMetadataIndex`: scan indices `0 .. max_files` for the
first slot with matching id (strcmp) that is valid; the final
`validMetadataIndex` check turns a failed scan into ERR_FILE_NOT_FOUND
(`none`). -/
def findMetadataIndex (img_id : String) (f : ImgstFile) : Option Nat :=
  let i := scanFrom
    (fun j =>
      let m := f.metadata.getD j emptyMetadata
      (m.img_id == img_id) && !(m.is_valid == 0))
    0 f.header.max_files
  if validMetadataIndex i f then some i else none

/-! ## imgst_create.c -/

/-- imgst_create.c `do_create`: the caller presets `max_files` and
`res_resized` in the header; do_create writes CAT_TXT as the name,
zeroes version and num_files, allocates the zeroed metadata array, and
writes the header followed by all `max_files` slots into the freshly
truncated ("wb") file. -/
def do_create (max_files : Nat) (res_resized : List Nat) : ImgstFile :=
  let header : ImgstHeader :=
    { imgst_name := CAT_TXT
      imgst_version := 0
      num_files := 0
      max_files := max_files
      res_resized := res_resized }
  let metadata := List.replicate max_files emptyMetadata
  { header := header
    metadata := metadata
    diskHeader := header
    diskSlots := metadata
    heap := [] }

/-! ## dedup.c -/

/-- The scan loop of `do_name_and_content_dedup`, iterating `i` from
`i0` upward for `fuel` steps. `cur` is the evolving content of
`metadata[index]` (the loop's memcpy writes land there) and `hasClone`
the `has_content_clone` flag. A duplicate id aborts the loop via
`.error cur`, keeping the mutations made so far, exactly as the C early
return does. -/
def dedupScan (l : List ImgMetadata) (index : Nat) (id : String) (sha : List Nat)
    (i0 fuel : Nat) (cur : ImgMetadata) (hasClone : Bool) :
    Except ImgMetadata (ImgMetadata × Bool) :=
  match fuel with
  | 0 => .ok (cur, hasClone)
  | fuel + 1 =>
    let m := l.getD i0 emptyMetadata
    if i0 ≠ index ∧ m.is_valid ≠ 0 then
      if m.img_id = id then .error cur
      else if m.sha = sha then
        dedupScan l index id sha (i0 + 1) fuel
          { cur with offset := m.offset, size := m.size } true
      else dedupScan l index id sha (i0 + 1) fuel cur hasClone
    else dedupScan l index id sha (i0 + 1) fuel cur hasClone

/-- dedup.c `do_name_and_content_dedup`: range-check the index, scan
every other valid slot; a matching id yields ERR_DUPLICATE_ID, a
matching SHA copies that slot's whole offset/size table into slot
`index`; if no content clone was found, `offset[RES_ORIG]` is zeroed as
the "content is new" sentinel. -/
def do_name_and_content_dedup (f : ImgstFile) (index : Nat) : Err × ImgstFile :=
  if f.header.max_files ≤ index then (.invalidArgument, f)
  else
    let m0 := f.metadata.getD index emptyMetadata
    match dedupScan f.metadata index m0.img_id m0.sha 0 f.header.max_files m0 false with
    | .error cur => (.duplicateId, { f with metadata := f.metadata.set index cur })
    | .ok (cur, hasClone) =>
      let cur := if hasClone then cur else { cur with offset := cur.offset.set RES_ORIG 0 }
      (.ok, { f with metadata := f.metadata.set index cur })

/-! ## imgst_insert.c -/

/-- The free-slot search of `do_insert`:
`while (index < max_files && metadata[index].is_valid != 0) ++index;`. -/
def freeSlotIndex (f : ImgstFile) : Nat :=
  scanFrom (fun j => (f.metadata.getD j emptyMetadata).is_valid == 0) 0 f.header.max_files

/-- imgst_insert.c `do_insert`. `hash` is the opaque SHA256 capability
and `getRes` the opaque `get_resolution` codec capability (`none`
models a vips failure, ERR_IMGLIB). Mirrors the C step for step:
capacity check, free-slot scan, write SHA and id into the free slot,
dedup, append the raw bytes when the content is new (a zero-length
`fwrite` returns 0 and hence ERR_IO), read the resolution, fill in the
remaining fields, bump the header and persist header and slot (the C
checks updateHeader's error code, but updateHeader cannot fail in the
deterministic file model, so its result state is used directly). -/
def do_insert (hash : List Nat → List Nat) (getRes : List Nat → Option (Nat × Nat))
    (image_buffer : List Nat) (img_id : String) (f : ImgstFile) : Err × ImgstFile :=
  if f.header.max_files ≤ f.header.num_files then (.fullImgstore, f)
  else
    let index := freeSlotIndex f
    let sha := hash image_buffer
    let m0 := f.metadata.getD index emptyMetadata
    let f1 := { f with metadata := f.metadata.set index { m0 with sha := sha, img_id := img_id } }
    match do_name_and_content_dedup f1 index with
    | (.ok, f2) =>
      let step3 : Err × ImgstFile :=
        if (f2.metadata.getD index emptyMetadata).offset.get RES_ORIG = 0 then
          let offset_endfile := fileEnd f2
          let m1 := f2.metadata.getD index emptyMetadata
          let m1a := { m1 with offset := m1.offset.set RES_ORIG offset_endfile }
          let f3 := { f2 with metadata := f2.metadata.set index m1a }
          if image_buffer = [] then (.ioErr, f3)
          else (.ok, { f3 with heap := f3.heap ++ image_buffer })
        else (.ok, f2)
      match step3 with
      | (.ok, f4) =>
        match getRes image_buffer with
        | none => (.imglib, f4)
        | some (w, h) =>
          let m2 := f4.metadata.getD index emptyMetadata
          let m3 := { m2 with
            res_orig_w := w
            res_orig_h := h
            is_valid := 1
            size := m2.size.set RES_ORIG (image_buffer.length % U32) }
          let f5 := { f4 with
            metadata := f4.metadata.set index m3
            header := { f4.header with
              imgst_version := (f4.header.imgst_version + 1) % U32
              num_files := (f4.header.num_files + 1) % U32 } }
          let f6 := (updateHeader f5).2
          updateMetadata index f6
      | r => r
    | r => r

/-! ## imgst_delete.c -/

/-- imgst_delete.c `do_delete`: refuse when `num_files` is zero
(ERR_FILE_NOT_FOUND), locate the id, clear `is_valid`, persist the
slot, then decrement `num_files`, bump the version and persist the
header. -/
def do_delete (img_id : String) (f : ImgstFile) : Err × ImgstFile :=
  if f.header.num_files = 0 then (.fileNotFound, f)
  else
    match findMetadataIndex img_id f with
    | none => (.fileNotFound, f)
    | some idx =>
      let m := f.metadata.getD idx emptyMetadata
      let f1 := { f with metadata := f.metadata.set idx { m with is_valid := 0 } }
      match updateMetadata idx f1 with
      | (.ok, f2) =>
        let f3 := { f2 with header := { f2.header with
          num_files := f2.header.num_files - 1
          imgst_version := (f2.header.imgst_version + 1) % U32 } }
        updateHeader f3
      | r => r

/-! ## image_content.c -/

/-- image_content.c `shrink_value`: the ratio between the target box
and the original, `min(maxW / Xsize, maxH / Ysize)`. The C computes in
`double`; the model uses exact rationals. -/
def shrink_value (xsize ysize max_resized_width max_resized_height : Nat) : ℚ :=
  let h_shrink : ℚ := (max_resized_width : ℚ) / (xsize : ℚ)
  let v_shrink : ℚ := (max_resized_height : ℚ) / (ysize : ℚ)
  if v_shrink < h_shrink then v_shrink else h_shrink

/-- image_content.c `lazily_resize`. `decode` models
`vips_jpegload_buffer` returning the image dimensions; `resizeEnc`
models `vips_resize` followed by `vips_jpegsave_buffer`, taking the
original bytes and the shrink ratio and returning the encoded resized
bytes (`none` is a vips failure, ERR_IMGLIB). Mirrors the C: early
ERR_NONE for RES_ORIG, resolution check, `validMetadataIndex`, the
cache-hit early ERR_NONE when `offset[res] != 0`, then read the
original bytes, compute the shrink ratio from
`header.res_resized[2*res]` and `[2*res+1]`, append the encoded bytes
(an empty encoding would make `fwrite` return 0, ERR_IO), record the
new offset and size and persist the slot. -/
def lazily_resize (decode : List Nat → Option (Nat × Nat))
    (resizeEnc : List Nat → ℚ → Option (List Nat))
    (res_code : Nat) (f : ImgstFile) (idx : Nat) : Err × ImgstFile :=
  if res_code = RES_ORIG then (.ok, f)
  else if ¬(res_code = RES_SMALL ∨ res_code = RES_THUMB) then (.resolutions, f)
  else if ¬ validMetadataIndex idx f then (.invalidArgument, f)
  else if (f.metadata.getD idx emptyMetadata).offset.get res_code ≠ 0 then (.ok, f)
  else
    let m := f.metadata.getD idx emptyMetadata
    match fileReadAt f (m.offset.get RES_ORIG) (m.size.get RES_ORIG) with
    | none => (.ioErr, f)
    | some origBytes =>
      match decode origBytes with
      | none => (.imglib, f)
      | some (w, h) =>
        let ratio := shrink_value w h
          (f.header.res_resized.getD (2 * res_code) 0)
          (f.header.res_resized.getD (2 * res_code + 1) 0)
        let offset := fileEnd f
        match resizeEnc origBytes ratio with
        | none => (.imglib, f)
        | some resized =>
          if resized = [] then (.ioErr, f)
          else
            let f1 := { f with heap := f.heap ++ resized }
            let m1 := { m with
              offset := m.offset.set res_code offset
              size := m.size.set res_code (resized.length % U32) }
            let f2 := { f1 with metadata := f1.metadata.set idx m1 }
            updateMetadata idx f2

/-! ## imgst_read.c -/

/-- imgst_read.c `do_read`. Returns the error code, the state (the C
mutates the store only through `lazily_resize`), the bytes handed back
through `image_buffer` and the value stored through `image_size`.
Mirrors the C: resolution check, `findMetadataIndex`, `lazily_resize`
on a cold cache (`offset == INIT_OFFSET`), set `*image_size`, then
`fseek` + `fread` of the cached range (a failed `fread` is ERR_IO with
the buffer freed, hence `none`). -/
def do_read (decode : List Nat → Option (Nat × Nat))
    (resizeEnc : List Nat → ℚ → Option (List Nat))
    (img_id : String) (resolution : Nat) (f : ImgstFile) :
    Err × ImgstFile × Option (List Nat) × Nat :=
  if ¬(resolution = RES_SMALL ∨ resolution = RES_THUMB ∨ resolution = RES_ORIG) then
    (.resolutions, f, none, 0)
  else
    match findMetadataIndex img_id f with
    | none => (.fileNotFound, f, none, 0)
    | some idx =>
      let step : Err × ImgstFile :=
        if (f.metadata.getD idx emptyMetadata).offset.get resolution = 0 then
          lazily_resize decode resizeEnc resolution f idx
        else (.ok, f)
      match step with
      | (.ok, f1) =>
        let m := f1.metadata.getD idx emptyMetadata
        let sz := m.size.get resolution
        match fileReadAt f1 (m.offset.get resolution) sz with
        | some buf => (.ok, f1, some buf, sz)
        | none => (.ioErr, f1, none, sz)
      | (e, f1) => (e, f1, none, 0)

/-! ## tools.c do_open -/

/-- The contents of a candidate imgStore file on disk, as far as
`do_open` reads it: `hdr` is `some h` when the file holds at least one
complete header record, `slots` are the complete metadata records
present after the header (fewer than `hdr.max_files` for a truncated
file), and `heap` the remaining bytes. -/
structure RawFile where
  hdr : Option ImgstHeader
  slots : List ImgMetadata
  heap : List Nat

/-- tools.c `do_open`. The file argument is `none` when `fopen` fails.
Mirrors the C: mode must be "rb" or "rb+" (ERR_INVALID_ARGUMENT),
`fopen` failure is ERR_IO, a short header read is ERR_IO, then exactly
`header.max_files` slot records are requested and
`nb_elems_read != max_files + 1` — the truncated-file case — is again
ERR_IO. -/
def do_open (file : Option RawFile) (open_mode : String) : Err × Option ImgstFile :=
  if ¬(open_mode = "rb" ∨ open_mode = "rb+") then (.invalidArgument, none)
  else
    match file with
    | none => (.ioErr, none)
    | some rf =>
      match rf.hdr with
      | none => (.ioErr, none)
      | some h =>
        let nb_elems_read := 1 + min rf.slots.length h.max_files
        if nb_elems_read ≠ h.max_files + 1 then (.ioErr, none)
        else
          (.ok, some
            { header := h
              metadata := rf.slots.take h.max_files
              diskHeader := h
              diskSlots := rf.slots.take h.max_files
              heap := rf.heap })

/-! ## Store invariants used by the theorems -/

/-- Number of valid slots in a metadata table. -/
def countValid (l : List ImgMetadata) : Nat :=
  (l.filter (fun m => !(m.is_valid == 0))).length

/-- Basic well-formedness of an open store: the in-memory table has
exactly `max_files` records, `num_files` counts the valid slots, and
`max_files` fits in its `uint32_t` field. -/
def wf (f : ImgstFile) : Prop :=
  f.metadata.length = f.header.max_files ∧
  f.header.num_files = countValid f.metadata ∧
  f.header.max_files < U32

instance (f : ImgstFile) : Decidable (wf f) := by
  unfold wf; infer_instance

/-- Every valid slot's ORIGINAL range points inside the heap and has a
non-zero size. -/
def slotRangesOk (f : ImgstFile) : Prop :=
  ∀ m ∈ f.metadata, m.is_valid ≠ 0 →
    heapStart f.header.max_files ≤ m.offset.get RES_ORIG ∧
    m.offset.get RES_ORIG - heapStart f.header.max_files + m.size.get RES_ORIG ≤ f.heap.length ∧
    m.size.get RES_ORIG ≠ 0

/-- Every valid slot's stored digest is the hash of the ORIGINAL bytes
it points at (spec: hash equality is treated as content equality). -/
def hashConsistent (hash : List Nat → List Nat) (f : ImgstFile) : Prop :=
  ∀ m ∈ f.metadata, m.is_valid ≠ 0 →
    m.sha = hash ((f.heap.drop (m.offset.get RES_ORIG - heapStart f.header.max_files)).take
      (m.size.get RES_ORIG))

instance (f : ImgstFile) : Decidable (slotRangesOk f) := by
  unfold slotRangesOk; infer_instance

instance (hash : List Nat → List Nat) (f : ImgstFile) : Decidable (hashConsistent hash f) := by
  unfold hashConsistent; infer_instance

/-- The slot content carried out of `dedupScan`, whether the loop ended
normally or through the duplicate-id early exit (projection helper used
by the frame lemmas below). -/
def dedupCur : Except ImgMetadata (ImgMetadata × Bool) → ImgMetadata
  | .error c => c
  | .ok (c, _) => c

/-- The store produced by a successful `do_insert` that placed `slot`
at index `i1` and left the heap as `heap2`: version and num_files
bumped, slot written in memory and on disk, header persisted. -/
def insertResult (f : ImgstFile) (i1 : Nat) (slot : ImgMetadata) (heap2 : List Nat) : ImgstFile :=
  let header2 := { f.header with
    imgst_version := (f.header.imgst_version + 1) % U32
    num_files := (f.header.num_files + 1) % U32 }
  { header := header2
    metadata := f.metadata.set i1 slot
    diskHeader := header2
    diskSlots := f.diskSlots.set i1 slot
    heap := heap2 }

/-- The store produced by a successful `do_delete` of the slot at
`idx`, starting from a store whose disk mirror is in sync: only that
slot's `is_valid` flag and the header's `num_files`/`imgst_version`
change, in memory and on disk. -/
def deleteResult (f : ImgstFile) (idx : Nat) : ImgstFile :=
  let m2 := { f.metadata.getD idx emptyMetadata with is_valid := 0 }
  let header2 := { f.header with
    num_files := f.header.num_files - 1
    imgst_version := (f.header.imgst_version + 1) % U32 }
  { header := header2
    metadata := f.metadata.set idx m2
    diskHeader := header2
    diskSlots := f.metadata.set idx m2
    heap := f.heap }

/-- The store produced by a successful `do_delete` of the slot at
`idx` on an arbitrary store (no assumption that the disk mirror was in
sync before the call). -/
def deleteResultRaw (f : ImgstFile) (idx : Nat) : ImgstFile :=
  let m2 := { f.metadata.getD idx emptyMetadata with is_valid := 0 }
  let l2 := f.metadata.set idx m2
  let header2 := { f.header with
    num_files := f.header.num_files - 1
    imgst_version := (f.header.imgst_version + 1) % U32 }
  { header := header2
    metadata := l2
    diskHeader := header2
    diskSlots := f.diskSlots.set idx (l2.getD idx emptyMetadata)
    heap := f.heap }

/-- Store states reachable through create, insert and delete (with
arbitrary hash/codec capabilities and arguments at every step); the
created capacity is a `uint32_t` value. -/
inductive Reachable : ImgstFile → Prop where
  | create : ∀ max_files res_resized, max_files < U32 →
      Reachable (do_create max_files res_resized)
  | insert : ∀ hash getRes buf id f, Reachable f →
      Reachable (do_insert hash getRes buf id f).2
  | delete : ∀ id f, Reachable f →
      Reachable (do_delete id f).2

/-! ## Concrete sample data for witnesses and counterexamples -/

/-- A stand-in for the opaque SHA256 capability: the identity (an
injective digest, so hash equality is content equality). -/
def hashId : List Nat → List Nat := fun c => c

/-- A constant-dimension stand-in for `get_resolution`. -/
def getResUnit : List Nat → Option (Nat × Nat) := fun _ => some (1, 1)

/-- A constant-dimension stand-in for the decode step of
`lazily_resize`. -/
def decodeUnit : List Nat → Option (Nat × Nat) := fun _ => some (2, 2)

/-- A stand-in resize+encode capability producing a fixed byte. -/
def resizeEncUnit : List Nat → ℚ → Option (List Nat) := fun _ _ => some [9]

/-- A decode stand-in reporting a 10x10 original. -/
def decode10 : List Nat → Option (Nat × Nat) := fun _ => some (10, 10)

/-- A resize+encode stand-in that records whether the shrink ratio it
was handed exceeds 1: it encodes to `[1]` exactly when it does. -/
def rencProbe : List Nat → ℚ → Option (List Nat) :=
  fun _ r => if 1 < r then some [1] else some [2]

/-- Fresh capacity-1 store. -/
def store1 : ImgstFile := do_create 1 [64, 64, 256, 256]

/-- Capacity-1 store after one successful insert (id "x", bytes [7]). -/
def store1x : ImgstFile := (do_insert hashId getResUnit [7] "x" store1).2

/-- Fresh capacity-2 store. -/
def store2 : ImgstFile := do_create 2 [64, 64, 256, 256]

/-- Capacity-2 store holding "x" (bytes [7]). -/
def store2x : ImgstFile := (do_insert hashId getResUnit [7] "x" store2).2

/-- Capacity-2 store holding "x" (bytes [7]) and "y" (bytes [5]). -/
def store2xy : ImgstFile := (do_insert hashId getResUnit [5] "y" store2x).2

/-- Two-slot store after inserting the same bytes [7] first under "x"
and then under "y" (the second insert takes the dedup alias path). -/
def store2xYdup : ImgstFile := (do_insert hashId getResUnit [7] "y" store2x).2

/-- The previous store after deleting "x". -/
def store2xYdupDel : ImgstFile := (do_delete "x" store2xYdup).2

/-- A header announcing two slots, for the truncated-file scenario. -/
def truncHeader : ImgstHeader :=
  { imgst_name := "trunc"
    imgst_version := 0
    num_files := 1
    max_files := 2
    res_resized := [64, 64, 256, 256] }

/-- One valid slot holding a 1-byte original at the very start of the
heap of a capacity-1 store. -/
def slotX7 : ImgMetadata :=
  { img_id := "x", sha := [7], res_orig_w := 1, res_orig_h := 1,
    size := ⟨0, 0, 1⟩, offset := ⟨0, 0, 272⟩, is_valid := 1 }

/-- Header of the capacity-1 store holding `slotX7`. -/
def headerX7 : ImgstHeader :=
  { imgst_name := "EPFL ImgStore binary", imgst_version := 1, num_files := 1,
    max_files := 1, res_resized := [64, 64, 256, 256] }

/-- A capacity-1 store with one valid image "x" (original bytes [7] at
heap offset 272 = heapStart 1), disk in sync, no variants cached. -/
def storeX7 : ImgstFile :=
  { header := headerX7, metadata := [slotX7], diskHeader := headerX7,
    diskSlots := [slotX7], heap := [7] }

/-- A content of exactly 2^32 bytes: its length does not fit the
`uint32_t` size field. -/
def hugeContent : List Nat := List.replicate U32 1

/-- A constant digest capability (harmless here: the store receiving
`hugeContent` has no other valid slot). -/
def hashConst : List Nat → List Nat := fun _ => []

/-- Capacity-2 store after inserting the 2^32-byte content under "x"
(the stored `size[RES_ORIG]` is `2^32 % 2^32 = 0`). -/
def storeHugeX : ImgstFile := (do_insert hashConst getResUnit hugeContent "x" store2).2

/-- The previous store after inserting the same 2^32 bytes under "y":
the dedup alias path copies "x"'s offset/size table and appends
nothing. -/
def storeHugeXY : ImgstFile := (do_insert hashConst getResUnit hugeContent "y" storeHugeX).2

/-- The previous store after deleting "x". -/
def storeHugeXYdel : ImgstFile := (do_delete "x" storeHugeXY).2

/-! ## Small lemmas about the embedded data structures -/

@[simp] theorem ResArr.get_thumb_eq (a : ResArr) : a.get RES_THUMB = a.thumb := rfl

@[simp] theorem ResArr.get_small_eq (a : ResArr) : a.get RES_SMALL = a.small := rfl

@[simp] theorem ResArr.get_orig_eq (a : ResArr) : a.get RES_ORIG = a.orig := rfl

@[simp] theorem ResArr.set_thumb_eq (a : ResArr) (v : Nat) :
    a.set RES_THUMB v = { a with thumb := v } := rfl

@[simp] theorem ResArr.set_small_eq (a : ResArr) (v : Nat) :
    a.set RES_SMALL v = { a with small := v } := rfl

@[simp] theorem ResArr.set_orig_eq (a : ResArr) (v : Nat) :
    a.set RES_ORIG v = { a with orig := v } := rfl

theorem getD_set_self {α : Type} (l : List α) (i : Nat) (m d : α) (h : i < l.length) :
    (l.set i m).getD i d = m := by
  induction l generalizing i with
  | nil => simp at h
  | cons a l ih =>
    cases i with
    | zero => simp
    | succ i =>
      simp only [List.set, List.getD_cons_succ]
      exact ih i (by simpa using h)

theorem getD_set_ne {α : Type} (l : List α) (i j : Nat) (m d : α) (h : i ≠ j) :
    (l.set i m).getD j d = l.getD j d := by
  induction l generalizing i j with
  | nil => simp
  | cons a l ih =>
    cases i with
    | zero =>
      cases j with
      | zero => exact absurd rfl h
      | succ j => simp
    | succ i =>
      cases j with
      | zero => simp
      | succ j =>
        simp only [List.set, List.getD_cons_succ]
        exact ih i j (by omega)

theorem getD_mem {α : Type} (l : List α) (j : Nat) (d : α) (h : j < l.length) :
    l.getD j d ∈ l := by
  induction l generalizing j with
  | nil => simp at h
  | cons a l ih =>
    cases j with
    | zero => simp
    | succ j =>
      simp only [List.getD_cons_succ]
      exact List.mem_cons_of_mem _ (ih j (by simpa using h))

/-! ## Lemmas about the ascending scan -/

theorem scanFrom_ge (p : Nat → Bool) (i fuel : Nat) : i ≤ scanFrom p i fuel := by
  induction fuel generalizing i with
  | zero => simp [scanFrom]
  | succ fuel ih =>
    simp only [scanFrom]
    split
    · exact le_refl i
    · exact le_trans (Nat.le_succ i) (ih (i + 1))

theorem scanFrom_le (p : Nat → Bool) (i fuel : Nat) : scanFrom p i fuel ≤ i + fuel := by
  induction fuel generalizing i with
  | zero => simp [scanFrom]
  | succ fuel ih =>
    simp only [scanFrom]
    split
    · omega
    · have := ih (i + 1); omega

theorem scanFrom_pos (p : Nat → Bool) (i fuel : Nat)
    (h : scanFrom p i fuel < i + fuel) : p (scanFrom p i fuel) = true := by
  induction fuel generalizing i with
  | zero => simp only [scanFrom] at h; omega
  | succ fuel ih =>
    rw [scanFrom] at h ⊢
    cases hp : p i with
    | true => simpa using hp
    | false =>
      rw [hp] at h
      rw [if_neg Bool.false_ne_true] at h ⊢
      exact ih (i + 1) (by omega)

theorem scanFrom_before (p : Nat → Bool) (i fuel : Nat) :
    ∀ j, i ≤ j → j < scanFrom p i fuel → p j = false := by
  induction fuel generalizing i with
  | zero =>
    intro j h1 h2
    simp only [scanFrom] at h2
    omega
  | succ fuel ih =>
    intro j h1 h2
    simp only [scanFrom] at h2
    cases hp : p i with
    | true => rw [hp] at h2; simp at h2; omega
    | false =>
      rw [hp, if_neg Bool.false_ne_true] at h2
      rcases Nat.eq_or_lt_of_le h1 with rfl | hlt
      · exact hp
      · exact ih (i + 1) j hlt h2

theorem scanFrom_eq_of (p : Nat → Bool) (i fuel t : Nat)
    (h1 : i ≤ t) (h2 : t < i + fuel) (h3 : p t = true)
    (h4 : ∀ j, i ≤ j → j < t → p j = false) : scanFrom p i fuel = t := by
  rcases lt_trichotomy (scanFrom p i fuel) t with h | h | h
  · have := scanFrom_pos p i fuel (by omega)
    have := h4 _ (scanFrom_ge p i fuel) h
    simp_all
  · exact h
  · have := scanFrom_before p i fuel t h1 h
    simp_all

theorem scanFrom_eq_full (p : Nat → Bool) (i fuel : Nat)
    (h : ∀ j, i ≤ j → j < i + fuel → p j = false) : scanFrom p i fuel = i + fuel := by
  rcases Nat.eq_or_lt_of_le (scanFrom_le p i fuel) with he | hlt
  · exact he
  · have := scanFrom_pos p i fuel hlt
    have := h _ (scanFrom_ge p i fuel) hlt
    simp_all

/-! ## Lemmas about countValid -/

theorem countValid_nil : countValid [] = 0 := rfl

theorem countValid_cons (m : ImgMetadata) (l : List ImgMetadata) :
    countValid (m :: l) = (if m.is_valid = 0 then 0 else 1) + countValid l := by
  by_cases h : m.is_valid = 0
  · simp [countValid, List.filter_cons, h]
  · simp [countValid, List.filter_cons, h]
    omega

theorem countValid_le_length (l : List ImgMetadata) : countValid l ≤ l.length :=
  List.length_filter_le _ _

theorem countValid_set (l : List ImgMetadata) (i : Nat) (m : ImgMetadata)
    (h : i < l.length) :
    countValid (l.set i m) + (if (l.getD i emptyMetadata).is_valid = 0 then 0 else 1) =
      countValid l + (if m.is_valid = 0 then 0 else 1) := by
  induction l generalizing i with
  | nil => simp at h
  | cons a l ih =>
    cases i with
    | zero =>
      simp only [List.set, List.getD_cons_zero, countValid_cons]
      omega
    | succ i =>
      simp only [List.set, List.getD_cons_succ, countValid_cons]
      have := ih i (by simpa using h)
      omega

theorem countValid_eq_length (l : List ImgMetadata)
    (h : ∀ j, j < l.length → (l.getD j emptyMetadata).is_valid ≠ 0) :
    countValid l = l.length := by
  induction l with
  | nil => rfl
  | cons a l ih =>
    have h0 := h 0 (by simp)
    simp only [List.getD_cons_zero] at h0
    rw [countValid_cons, if_neg h0]
    have hl : countValid l = l.length := by
      apply ih
      intro j hj
      have := h (j + 1) (by simpa using Nat.succ_lt_succ hj)
      simpa using this
    simp [hl, Nat.add_comm]

theorem set_of_length_le {α : Type} (l : List α) (i : Nat) (m : α) (h : l.length ≤ i) :
    l.set i m = l := by
  induction l generalizing i with
  | nil => simp
  | cons a l ih =>
    cases i with
    | zero => simp at h
    | succ i => simp only [List.set]; rw [ih i (by simpa using h)]

theorem countValid_congr (l1 l2 : List ImgMetadata) (hlen : l1.length = l2.length)
    (h : ∀ j, (l1.getD j emptyMetadata).is_valid = (l2.getD j emptyMetadata).is_valid) :
    countValid l1 = countValid l2 := by
  induction l1 generalizing l2 with
  | nil => cases l2 with
    | nil => rfl
    | cons b l2 => simp at hlen
  | cons a l1 ih =>
    cases l2 with
    | nil => simp at hlen
    | cons b l2 =>
      have h0 := h 0
      simp only [List.getD_cons_zero] at h0
      rw [countValid_cons, countValid_cons, h0,
        ih l2 (by simpa using hlen) (fun j => by simpa using h (j + 1))]

theorem countValid_replicate (n : Nat) : countValid (List.replicate n emptyMetadata) = 0 := by
  induction n with
  | zero => rfl
  | succ n ih =>
    rw [List.replicate_succ, countValid_cons,
      if_pos (show emptyMetadata.is_valid = 0 from rfl), ih]

/-! ## Lemmas about the dedup scan -/

theorem lt_length_of_getD_valid (l : List ImgMetadata) (j : Nat)
    (h : (l.getD j emptyMetadata).is_valid ≠ 0) : j < l.length := by
  by_contra hj
  push_neg at hj
  rw [List.getD_eq_default _ _ hj] at h
  simp [emptyMetadata] at h

/-- The dedup loop only writes the `offset` and `size` arrays of the
slot being prepared; every other field of the accumulator survives all
iterations and the early duplicate-id exit. -/
theorem dedupScan_frame (l : List ImgMetadata) (index : Nat) (id : String) (sha : List Nat)
    (i fuel : Nat) (cur : ImgMetadata) (hc : Bool) :
    (dedupCur (dedupScan l index id sha i fuel cur hc)).img_id = cur.img_id ∧
    (dedupCur (dedupScan l index id sha i fuel cur hc)).sha = cur.sha ∧
    (dedupCur (dedupScan l index id sha i fuel cur hc)).res_orig_w = cur.res_orig_w ∧
    (dedupCur (dedupScan l index id sha i fuel cur hc)).res_orig_h = cur.res_orig_h ∧
    (dedupCur (dedupScan l index id sha i fuel cur hc)).is_valid = cur.is_valid := by
  induction fuel generalizing i cur hc with
  | zero => simp [dedupScan, dedupCur]
  | succ fuel ih =>
    simp only [dedupScan]
    split
    · split
      · simp [dedupCur]
      · split
        · exact ih (i + 1) _ _
        · exact ih (i + 1) _ _
    · exact ih (i + 1) _ _

/-- When no other valid slot in the scanned range matches the new id or
the new digest, the loop leaves the accumulator untouched. -/
theorem dedupScan_all_clean (l : List ImgMetadata) (index : Nat) (id : String)
    (sha : List Nat) (i fuel : Nat) (cur : ImgMetadata) (hc : Bool)
    (h : ∀ j, i ≤ j → j < i + fuel → j ≠ index →
      (l.getD j emptyMetadata).is_valid ≠ 0 →
      (l.getD j emptyMetadata).img_id ≠ id ∧ (l.getD j emptyMetadata).sha ≠ sha) :
    dedupScan l index id sha i fuel cur hc = .ok (cur, hc) := by
  induction fuel generalizing i with
  | zero => simp [dedupScan]
  | succ fuel ih =>
    simp only [dedupScan]
    split
    · rename_i hcond
      obtain ⟨hne, hval⟩ := hcond
      obtain ⟨hid, hsha⟩ := h i (le_refl i) (by omega) hne hval
      rw [if_neg hid, if_neg hsha]
      exact ih (i + 1) (fun j h1 h2 => h j (by omega) (by omega))
    · exact ih (i + 1) (fun j h1 h2 => h j (by omega) (by omega))

/-- A valid slot with the new id anywhere in the scanned range makes
the loop exit through the duplicate-id error. -/
theorem dedupScan_dup_error (l : List ImgMetadata) (index : Nat) (id : String)
    (sha : List Nat) (i fuel : Nat) (cur : ImgMetadata) (hc : Bool) (t : Nat)
    (h1 : i ≤ t) (h2 : t < i + fuel) (h3 : t ≠ index)
    (h4 : (l.getD t emptyMetadata).is_valid ≠ 0)
    (h5 : (l.getD t emptyMetadata).img_id = id) :
    ∃ cur', dedupScan l index id sha i fuel cur hc = .error cur' := by
  induction fuel generalizing i cur hc with
  | zero => omega
  | succ fuel ih =>
    simp only [dedupScan]
    rcases Nat.eq_or_lt_of_le h1 with rfl | hlt
    · rw [if_pos ⟨h3, h4⟩, if_pos h5]
      exact ⟨cur, rfl⟩
    · split
      · split
        · exact ⟨cur, rfl⟩
        · split
          · exact ih (i + 1) _ _ hlt (by omega)
          · exact ih (i + 1) _ _ hlt (by omega)
      · exact ih (i + 1) _ _ hlt (by omega)

/-- With no duplicate id in range, a content match in the range (or an
already-set clone flag backed by a matching slot) makes the loop return
`has_content_clone = true` with the offset/size table of some valid
slot of `l` whose digest matches. -/
theorem dedupScan_clone (l : List ImgMetadata) (index : Nat) (id : String)
    (sha : List Nat) (i fuel : Nat) (cur : ImgMetadata) (hc : Bool)
    (hnodup : ∀ j, i ≤ j → j < i + fuel → j ≠ index →
      (l.getD j emptyMetadata).is_valid ≠ 0 → (l.getD j emptyMetadata).img_id ≠ id)
    (hinv : hc = true → ∃ m ∈ l, m.is_valid ≠ 0 ∧ m.sha = sha ∧
      cur.offset = m.offset ∧ cur.size = m.size)
    (hex : (∃ j, i ≤ j ∧ j < i + fuel ∧ j ≠ index ∧
      (l.getD j emptyMetadata).is_valid ≠ 0 ∧ (l.getD j emptyMetadata).sha = sha) ∨
      hc = true) :
    ∃ cur', dedupScan l index id sha i fuel cur hc = .ok (cur', true) ∧
      ∃ m ∈ l, m.is_valid ≠ 0 ∧ m.sha = sha ∧ cur'.offset = m.offset ∧ cur'.size = m.size := by
  induction fuel generalizing i cur hc with
  | zero =>
    rcases hex with ⟨j, hj1, hj2, _⟩ | rfl
    · omega
    · exact ⟨cur, by simp [dedupScan], hinv rfl⟩
  | succ fuel ih =>
    simp only [dedupScan]
    by_cases hcond : i ≠ index ∧ (l.getD i emptyMetadata).is_valid ≠ 0
    · rw [if_pos hcond]
      rw [if_neg (hnodup i (le_refl i) (by omega) hcond.1 hcond.2)]
      by_cases hsha : (l.getD i emptyMetadata).sha = sha
      · rw [if_pos hsha]
        apply ih (i + 1)
        · intro j h1 h2; exact hnodup j (by omega) (by omega)
        · intro _
          refine ⟨l.getD i emptyMetadata,
            getD_mem l i emptyMetadata (lt_length_of_getD_valid l i hcond.2),
            hcond.2, hsha, rfl, rfl⟩
        · right; rfl
      · rw [if_neg hsha]
        apply ih (i + 1)
        · intro j h1 h2; exact hnodup j (by omega) (by omega)
        · exact hinv
        · rcases hex with ⟨j, hj1, hj2, hj3, hj4, hj5⟩ | hhc
          · left
            have hji : j ≠ i := by
              intro hji; rw [hji] at hj5; exact hsha hj5
            exact ⟨j, by omega, by omega, hj3, hj4, hj5⟩
          · right; exact hhc
    · rw [if_neg hcond]
      apply ih (i + 1)
      · intro j h1 h2; exact hnodup j (by omega) (by omega)
      · exact hinv
      · rcases hex with ⟨j, hj1, hj2, hj3, hj4, hj5⟩ | hhc
        · left
          have hji : j ≠ i := by
            intro hji; rw [hji] at hj3 hj4; exact hcond ⟨hj3, hj4⟩
          exact ⟨j, by omega, by omega, hj3, hj4, hj5⟩
        · right; exact hhc

/-- With no duplicate id in range, a clean flag and exactly one content
match at `t`, the loop copies slot `t`'s offset/size table. -/
theorem dedupScan_unique_clone (l : List ImgMetadata) (index : Nat) (id : String)
    (sha : List Nat) (i fuel : Nat) (cur : ImgMetadata) (t : Nat)
    (hnodup : ∀ j, i ≤ j → j < i + fuel → j ≠ index →
      (l.getD j emptyMetadata).is_valid ≠ 0 → (l.getD j emptyMetadata).img_id ≠ id)
    (ht1 : i ≤ t) (ht2 : t < i + fuel) (ht3 : t ≠ index)
    (ht4 : (l.getD t emptyMetadata).is_valid ≠ 0)
    (ht5 : (l.getD t emptyMetadata).sha = sha)
    (huniq : ∀ j, i ≤ j → j < i + fuel → j ≠ index →
      (l.getD j emptyMetadata).is_valid ≠ 0 → (l.getD j emptyMetadata).sha = sha → j = t) :
    dedupScan l index id sha i fuel cur false =
      .ok ({ cur with offset := (l.getD t emptyMetadata).offset, size := (l.getD t emptyMetadata).size }, true) := by
  induction fuel generalizing i cur with
  | zero => omega
  | succ fuel ih =>
    simp only [dedupScan]
    rcases Nat.eq_or_lt_of_le ht1 with rfl | hlt
    · rw [if_pos ⟨ht3, ht4⟩]
      rw [if_neg (hnodup _ (le_refl _) (by omega) ht3 ht4)]
      rw [if_pos ht5]
      apply dedupScan_all_clean
      intro j h1 h2 h3 h4
      constructor
      · exact hnodup j (by omega) (by omega) h3 h4
      · intro hsha
        have := huniq j (by omega) (by omega) h3 h4 hsha
        omega
    · by_cases hcond : i ≠ index ∧ (l.getD i emptyMetadata).is_valid ≠ 0
      · rw [if_pos hcond]
        rw [if_neg (hnodup i (le_refl i) (by omega) hcond.1 hcond.2)]
        have hsha : (l.getD i emptyMetadata).sha ≠ sha := by
          intro hsha
          have := huniq i (le_refl i) (by omega) hcond.1 hcond.2 hsha
          omega
        rw [if_neg hsha]
        exact ih (i + 1) cur (fun j h1 h2 => hnodup j (by omega) (by omega)) hlt (by omega)
          (fun j h1 h2 => huniq j (by omega) (by omega))
      · rw [if_neg hcond]
        exact ih (i + 1) cur (fun j h1 h2 => hnodup j (by omega) (by omega)) hlt (by omega)
          (fun j h1 h2 => huniq j (by omega) (by omega))

/-! ## Shape lemmas for the operations -/

/-- `do_name_and_content_dedup` only ever touches the metadata table:
header, disk mirror and heap are returned unchanged. -/
theorem dedup_metadata_only (f : ImgstFile) (index : Nat) :
    ∃ l2, (do_name_and_content_dedup f index).2 = { f with metadata := l2 } := by
  unfold do_name_and_content_dedup
  dsimp only
  split
  · exact ⟨f.metadata, rfl⟩
  · split
    · exact ⟨_, rfl⟩
    · exact ⟨_, rfl⟩

/-- A successful `do_insert` bumps the header's version and num_files
fields by exactly one (as `uint32_t` values). -/
theorem do_insert_ok_header (hash : List Nat → List Nat)
    (getRes : List Nat → Option (Nat × Nat)) (buf : List Nat) (img_id : String)
    (f f' : ImgstFile) (h : do_insert hash getRes buf img_id f = (.ok, f')) :
    f'.header.imgst_version = (f.header.imgst_version + 1) % U32 ∧
    f'.header.num_files = (f.header.num_files + 1) % U32 := by
  unfold do_insert at h
  dsimp only at h
  split at h
  · simp at h
  · split at h
    case _ f2 heq =>
      obtain ⟨l2, hl2⟩ := dedup_metadata_only _ _
      rw [heq] at hl2
      dsimp only at hl2
      subst hl2
      split at h
      case _ f4 heq1 =>
        have hcont : f4.header = f.header →
            f'.header.imgst_version = (f.header.imgst_version + 1) % U32 ∧
            f'.header.num_files = (f.header.num_files + 1) % U32 := by
          intro hf4
          split at h
          · simp at h
          · unfold updateMetadata at h
            split at h
            · simp at h
            · rw [Prod.mk.injEq] at h
              rw [← h.2]
              dsimp only [updateHeader]
              rw [hf4]
              exact ⟨rfl, rfl⟩
        split at heq1
        · split at heq1
          · simp at heq1
          · rw [Prod.mk.injEq] at heq1
            obtain ⟨-, h4⟩ := heq1
            exact hcont (by rw [← h4])
        · rw [Prod.mk.injEq] at heq1
          obtain ⟨-, h4⟩ := heq1
          exact hcont (by rw [← h4])
      case _ r hne =>
        exact absurd h (hne f')
    case _ r hne =>
      exact absurd h (hne f')

/-- A successful `findMetadataIndex` points at an in-range, valid slot
carrying the requested id. -/
theorem findMetadataIndex_some (img_id : String) (f : ImgstFile) (idx : Nat)
    (h : findMetadataIndex img_id f = some idx) :
    idx < f.header.max_files ∧ (f.metadata.getD idx emptyMetadata).is_valid ≠ 0 ∧
    (f.metadata.getD idx emptyMetadata).img_id = img_id := by
  unfold findMetadataIndex at h
  dsimp only at h
  split at h
  case isTrue hv =>
    injection h with h
    subst h
    unfold validMetadataIndex at hv
    simp only [Bool.and_eq_true, decide_eq_true_eq, Bool.not_eq_true', beq_eq_false_iff_ne] at hv
    refine ⟨hv.1, hv.2, ?_⟩
    have hp := scanFrom_pos
      (fun j =>
        let m := f.metadata.getD j emptyMetadata
        (m.img_id == img_id) && !(m.is_valid == 0))
      0 f.header.max_files (by simpa using hv.1)
    simp only [Bool.and_eq_true, beq_iff_eq] at hp
    exact hp.1
  case isFalse => simp at h

/-- Complete characterization of a successful `do_delete`. -/
theorem do_delete_ok_shape (img_id : String) (f f' : ImgstFile)
    (h : do_delete img_id f = (.ok, f')) :
    ∃ idx, findMetadataIndex img_id f = some idx ∧ f.header.num_files ≠ 0 ∧
      ¬ f.header.max_files ≤ idx ∧ f' = deleteResultRaw f idx := by
  unfold do_delete at h
  split at h
  · simp at h
  · rename_i hnum
    split at h
    case _ => simp at h
    case _ idx heqf =>
      dsimp only at h
      split at h
      case _ f2 hequ =>
        unfold updateMetadata at hequ
        split at hequ
        case isTrue => simp at hequ
        case isFalse hrange =>
          rw [Prod.mk.injEq] at hequ
          obtain ⟨-, h2⟩ := hequ
          subst h2
          unfold updateHeader at h
          rw [Prod.mk.injEq] at h
          refine ⟨idx, heqf, hnum, hrange, ?_⟩
          rw [← h.2]
          rfl
      case _ r hne =>
        exact absurd h (hne f')

/-- `lazily_resize` only ever touches the metadata table, the on-disk
slot table and the heap: the header (and hence the version counter)
and the on-disk header are returned unchanged, whatever happens. -/
theorem lazily_resize_frame (decode : List Nat → Option (Nat × Nat))
    (resizeEnc : List Nat → ℚ → Option (List Nat)) (res_code : Nat)
    (f : ImgstFile) (idx : Nat) :
    ∃ l2 ds2 hp2, (lazily_resize decode resizeEnc res_code f idx).2 =
      { f with metadata := l2, diskSlots := ds2, heap := hp2 } := by
  unfold lazily_resize updateMetadata
  dsimp only
  repeat' split
  all_goals exact ⟨_, _, _, rfl⟩

/-! ## Well-formedness preservation -/

theorem wf_do_create (max_files : Nat) (res_resized : List Nat) (h : max_files < U32) :
    wf (do_create max_files res_resized) := by
  refine ⟨by simp [do_create], ?_, h⟩
  rw [show (do_create max_files res_resized).metadata = List.replicate max_files emptyMetadata from rfl,
    countValid_replicate]
  rfl

theorem freeSlotIndex_spec (f : ImgstFile) (hwf : wf f)
    (hnum : f.header.num_files < f.header.max_files) :
    freeSlotIndex f < f.header.max_files ∧
    (f.metadata.getD (freeSlotIndex f) emptyMetadata).is_valid = 0 := by
  obtain ⟨hlen, hcount, hmax⟩ := hwf
  unfold freeSlotIndex
  set p := fun j => (f.metadata.getD j emptyMetadata).is_valid == 0 with hp
  have hle := scanFrom_le p 0 f.header.max_files
  rw [Nat.zero_add] at hle
  rcases Nat.eq_or_lt_of_le hle with he | hlt
  · exfalso
    have hall : ∀ j, j < f.metadata.length → (f.metadata.getD j emptyMetadata).is_valid ≠ 0 := by
      intro j hj
      have hb := scanFrom_before p 0 f.header.max_files j (Nat.zero_le j) (by omega)
      rw [hp] at hb
      simp only [beq_eq_false_iff_ne] at hb
      exact hb
    have := countValid_eq_length f.metadata hall
    omega
  · have hps := scanFrom_pos p 0 f.header.max_files (by omega)
    rw [hp] at hps
    simp only [beq_iff_eq] at hps
    exact ⟨by omega, hps⟩

theorem dedup_effect (f : ImgstFile) (index : Nat) :
    (do_name_and_content_dedup f index).2.header = f.header ∧
    (do_name_and_content_dedup f index).2.diskHeader = f.diskHeader ∧
    (do_name_and_content_dedup f index).2.diskSlots = f.diskSlots ∧
    (do_name_and_content_dedup f index).2.heap = f.heap ∧
    (do_name_and_content_dedup f index).2.metadata.length = f.metadata.length ∧
    (∀ j, ((do_name_and_content_dedup f index).2.metadata.getD j emptyMetadata).is_valid
        = (f.metadata.getD j emptyMetadata).is_valid) ∧
    (∀ j, ((do_name_and_content_dedup f index).2.metadata.getD j emptyMetadata).img_id
        = (f.metadata.getD j emptyMetadata).img_id) := by
  have hcur : ∀ cur : ImgMetadata,
      cur.is_valid = (f.metadata.getD index emptyMetadata).is_valid →
      cur.img_id = (f.metadata.getD index emptyMetadata).img_id →
      (∀ j, ((f.metadata.set index cur).getD j emptyMetadata).is_valid
          = (f.metadata.getD j emptyMetadata).is_valid) ∧
      (∀ j, ((f.metadata.set index cur).getD j emptyMetadata).img_id
          = (f.metadata.getD j emptyMetadata).img_id) := by
    intro cur hv hid
    constructor <;> intro j <;>
    · by_cases hij : index = j
      · subst hij
        by_cases hrange : index < f.metadata.length
        · rw [getD_set_self _ _ _ _ hrange]
          first | exact hv | exact hid
        · rw [set_of_length_le _ _ _ (by omega)]
      · rw [getD_set_ne _ _ _ _ _ hij]
  unfold do_name_and_content_dedup
  dsimp only
  split
  · exact ⟨rfl, rfl, rfl, rfl, rfl, fun j => rfl, fun j => rfl⟩
  · rename_i hrange
    split
    case _ cur hscan =>
      have hframe := dedupScan_frame f.metadata index
        (f.metadata.getD index emptyMetadata).img_id
        (f.metadata.getD index emptyMetadata).sha 0 f.header.max_files
        (f.metadata.getD index emptyMetadata) false
      rw [hscan] at hframe
      simp only [dedupCur] at hframe
      have hc := hcur cur hframe.2.2.2.2 hframe.1
      exact ⟨rfl, rfl, rfl, rfl, by simp, hc.1, hc.2⟩
    case _ cur hasClone hscan =>
      have hframe := dedupScan_frame f.metadata index
        (f.metadata.getD index emptyMetadata).img_id
        (f.metadata.getD index emptyMetadata).sha 0 f.header.max_files
        (f.metadata.getD index emptyMetadata) false
      rw [hscan] at hframe
      simp only [dedupCur] at hframe
      by_cases hcl : hasClone = true
      · rw [if_pos hcl]
        have hc := hcur cur hframe.2.2.2.2 hframe.1
        exact ⟨rfl, rfl, rfl, rfl, by simp, hc.1, hc.2⟩
      · rw [if_neg hcl]
        have hc := hcur { cur with offset := cur.offset.set RES_ORIG 0 }
          hframe.2.2.2.2 hframe.1
        exact ⟨rfl, rfl, rfl, rfl, by simp, hc.1, hc.2⟩

theorem getD_set_valid_pointwise (l : List ImgMetadata) (i : Nat) (m : ImgMetadata)
    (hv : m.is_valid = (l.getD i emptyMetadata).is_valid) :
    ∀ j, ((l.set i m).getD j emptyMetadata).is_valid = (l.getD j emptyMetadata).is_valid := by
  intro j
  by_cases hij : i = j
  · subst hij
    by_cases hrange : i < l.length
    · rw [getD_set_self _ _ _ _ hrange]; exact hv
    · rw [set_of_length_le _ _ _ (by omega)]
  · rw [getD_set_ne _ _ _ _ _ hij]

theorem countValid_set_same (l : List ImgMetadata) (i : Nat) (m : ImgMetadata)
    (hv : m.is_valid = (l.getD i emptyMetadata).is_valid) :
    countValid (l.set i m) = countValid l :=
  countValid_congr _ _ (by simp) (getD_set_valid_pointwise l i m hv)

theorem dedup_effect_eq (f : ImgstFile) (index : Nat) (e : Err) (f2 : ImgstFile)
    (h : do_name_and_content_dedup f index = (e, f2)) :
    f2.header = f.header ∧ f2.heap = f.heap ∧
    f2.metadata.length = f.metadata.length ∧
    (∀ j, (f2.metadata.getD j emptyMetadata).is_valid
        = (f.metadata.getD j emptyMetadata).is_valid) ∧
    (∀ j, (f2.metadata.getD j emptyMetadata).img_id
        = (f.metadata.getD j emptyMetadata).img_id) := by
  have heff := dedup_effect f index
  rw [h] at heff
  exact ⟨heff.1, heff.2.2.2.1, heff.2.2.2.2.1, heff.2.2.2.2.2.1, heff.2.2.2.2.2.2⟩

theorem wf_of_fields (f2 f : ImgstFile) (hh2 : f2.header = f.header)
    (hlen2 : f2.metadata.length = f.metadata.length)
    (hval2 : ∀ j, (f2.metadata.getD j emptyMetadata).is_valid
      = (f.metadata.getD j emptyMetadata).is_valid)
    (hwf : wf f) : wf f2 := by
  obtain ⟨hlen, hcount, hmax⟩ := hwf
  refine ⟨by rw [hlen2, hh2]; exact hlen, ?_, by rw [hh2]; exact hmax⟩
  rw [hh2, countValid_congr f2.metadata f.metadata hlen2 hval2]
  exact hcount

theorem do_insert_wf (hash : List Nat → List Nat)
    (getRes : List Nat → Option (Nat × Nat)) (buf : List Nat) (img_id : String)
    (f : ImgstFile) (hwf : wf f) : wf (do_insert hash getRes buf img_id f).2 := by
  obtain ⟨hlen, hcount, hmax⟩ := hwf
  unfold do_insert
  dsimp only
  split
  · exact ⟨hlen, hcount, hmax⟩
  · rename_i hful
    have hnum : f.header.num_files < f.header.max_files := by omega
    obtain ⟨hi1, hfree⟩ := freeSlotIndex_spec f ⟨hlen, hcount, hmax⟩ hnum
    have hafter : ∀ f2 : ImgstFile, f2.header = f.header →
        f2.metadata.length = f.metadata.length →
        (∀ j, (f2.metadata.getD j emptyMetadata).is_valid
          = (f.metadata.getD j emptyMetadata).is_valid) →
        wf (match (if (f2.metadata.getD (freeSlotIndex f) emptyMetadata).offset.get RES_ORIG = 0 then
              let m1 := f2.metadata.getD (freeSlotIndex f) emptyMetadata
              let m1a := { m1 with offset := m1.offset.set RES_ORIG (fileEnd f2) }
              let f3 := { f2 with metadata := f2.metadata.set (freeSlotIndex f) m1a }
              if buf = [] then (Err.ioErr, f3)
              else (Err.ok, { f3 with heap := f3.heap ++ buf })
            else (Err.ok, f2)) with
          | (.ok, f4) =>
            match getRes buf with
            | none => (Err.imglib, f4)
            | some (w, h) =>
              let m2 := f4.metadata.getD (freeSlotIndex f) emptyMetadata
              let m3 := { m2 with
                res_orig_w := w
                res_orig_h := h
                is_valid := 1
                size := m2.size.set RES_ORIG (buf.length % U32) }
              let f5 := { f4 with
                metadata := f4.metadata.set (freeSlotIndex f) m3
                header := { f4.header with
                  imgst_version := (f4.header.imgst_version + 1) % U32
                  num_files := (f4.header.num_files + 1) % U32 } }
              let f6 := (updateHeader f5).2
              updateMetadata (freeSlotIndex f) f6
          | r => r).2 := by
      intro f2 hh2 hlen2 hval2
      have hwf2 : wf f2 := wf_of_fields f2 f hh2 hlen2 hval2 ⟨hlen, hcount, hmax⟩
      have hcont : ∀ f4 : ImgstFile, f4.header = f.header →
          f4.metadata.length = f.metadata.length →
          (∀ j, (f4.metadata.getD j emptyMetadata).is_valid
            = (f.metadata.getD j emptyMetadata).is_valid) →
          wf (match getRes buf with
            | none => (Err.imglib, f4)
            | some (w, h) =>
              let m2 := f4.metadata.getD (freeSlotIndex f) emptyMetadata
              let m3 := { m2 with
                res_orig_w := w
                res_orig_h := h
                is_valid := 1
                size := m2.size.set RES_ORIG (buf.length % U32) }
              let f5 := { f4 with
                metadata := f4.metadata.set (freeSlotIndex f) m3
                header := { f4.header with
                  imgst_version := (f4.header.imgst_version + 1) % U32
                  num_files := (f4.header.num_files + 1) % U32 } }
              let f6 := (updateHeader f5).2
              updateMetadata (freeSlotIndex f) f6).2 := by
        intro f4 hh4 hlen4 hval4
        have hwf4 : wf f4 := wf_of_fields f4 f hh4 hlen4 hval4 ⟨hlen, hcount, hmax⟩
        split
        · exact hwf4
        · rename_i w hres hget
          dsimp only
          have hi1len : freeSlotIndex f < f4.metadata.length := by rw [hlen4]; omega
          have hold : (f4.metadata.getD (freeSlotIndex f) emptyMetadata).is_valid = 0 := by
            rw [hval4]; exact hfree
          have hset := countValid_set f4.metadata (freeSlotIndex f)
            { f4.metadata.getD (freeSlotIndex f) emptyMetadata with
              res_orig_w := w
              res_orig_h := hres
              is_valid := 1
              size := (f4.metadata.getD (freeSlotIndex f) emptyMetadata).size.set
                RES_ORIG (buf.length % U32) }
            hi1len
          rw [if_pos hold] at hset
          rw [if_neg (by simp)] at hset
          have hcountset : countValid (f4.metadata.set (freeSlotIndex f)
              { f4.metadata.getD (freeSlotIndex f) emptyMetadata with
                res_orig_w := w
                res_orig_h := hres
                is_valid := 1
                size := (f4.metadata.getD (freeSlotIndex f) emptyMetadata).size.set
                  RES_ORIG (buf.length % U32) })
              = countValid f4.metadata + 1 := by omega
          have hc4 : countValid f4.metadata = f.header.num_files := by
            rw [hcount]
            exact countValid_congr _ _ hlen4 hval4
          have hmod : (f4.header.num_files + 1) % U32 = f4.header.num_files + 1 := by
            rw [hh4]
            exact Nat.mod_eq_of_lt (by omega)
          have hwf5 : wf { f4 with
              metadata := f4.metadata.set (freeSlotIndex f)
                { f4.metadata.getD (freeSlotIndex f) emptyMetadata with
                  res_orig_w := w
                  res_orig_h := hres
                  is_valid := 1
                  size := (f4.metadata.getD (freeSlotIndex f) emptyMetadata).size.set
                    RES_ORIG (buf.length % U32) }
              header := { f4.header with
                imgst_version := (f4.header.imgst_version + 1) % U32
                num_files := (f4.header.num_files + 1) % U32 } } := by
            refine ⟨?_, ?_, ?_⟩
            · show (f4.metadata.set _ _).length = f4.header.max_files
              rw [List.length_set, hlen4, hh4]
              exact hlen
            · show (f4.header.num_files + 1) % U32 = countValid (f4.metadata.set _ _)
              rw [hmod, hcountset, hc4, hh4]
            · show f4.header.max_files < U32
              rw [hh4]
              exact hmax
          unfold updateMetadata
          split
          · exact ⟨hwf5.1, hwf5.2.1, hwf5.2.2⟩
          · exact ⟨hwf5.1, hwf5.2.1, hwf5.2.2⟩
      split
      case _ f4 heq1 =>
        have hfacts : f4.header = f.header ∧ f4.metadata.length = f.metadata.length ∧
            (∀ j, (f4.metadata.getD j emptyMetadata).is_valid
              = (f.metadata.getD j emptyMetadata).is_valid) := by
          split at heq1
          · split at heq1
            · simp at heq1
            · rw [Prod.mk.injEq] at heq1
              obtain ⟨-, h4⟩ := heq1
              subst h4
              dsimp only
              refine ⟨hh2, by simpa using hlen2, ?_⟩
              intro j
              refine (getD_set_valid_pointwise f2.metadata (freeSlotIndex f) _ ?_ j).trans
                (hval2 j)
              rfl
          · rw [Prod.mk.injEq] at heq1
            obtain ⟨-, h4⟩ := heq1
            subst h4
            exact ⟨hh2, hlen2, hval2⟩
        exact hcont f4 hfacts.1 hfacts.2.1 hfacts.2.2
      case _ r hne =>
        split
        · dsimp only
          split
          · dsimp only
            refine wf_of_fields _ f hh2 (by simpa using hlen2) ?_ ⟨hlen, hcount, hmax⟩
            intro j
            refine (getD_set_valid_pointwise f2.metadata (freeSlotIndex f) _ ?_ j).trans
              (hval2 j)
            rfl
          · dsimp only
            refine wf_of_fields _ f hh2 (by simpa using hlen2) ?_ ⟨hlen, hcount, hmax⟩
            intro j
            refine (getD_set_valid_pointwise f2.metadata (freeSlotIndex f) _ ?_ j).trans
              (hval2 j)
            rfl
        · exact hwf2
    split
    case _ f2 heq =>
      obtain ⟨hh2, hhp2, hlen2, hval2, hid2⟩ := dedup_effect_eq _ _ _ _ heq
      dsimp only at hh2 hlen2 hval2
      refine hafter f2 hh2 (by rw [hlen2]; simp) ?_
      intro j
      refine (hval2 j).trans (getD_set_valid_pointwise f.metadata (freeSlotIndex f) _ ?_ j)
      rfl
    case _ r hne =>
      refine wf_of_fields _ f ?_ ?_ ?_ ⟨hlen, hcount, hmax⟩
      · exact (dedup_effect _ _).1
      · refine ((dedup_effect _ _).2.2.2.2.1).trans ?_
        simp
      · intro j
        refine ((dedup_effect _ _).2.2.2.2.2.1 j).trans
          ((getD_set_valid_pointwise f.metadata (freeSlotIndex f) _ ?_ j))
        rfl

theorem do_delete_err (img_id : String) (f : ImgstFile) (e : Err) (f2 : ImgstFile)
    (h : do_delete img_id f = (e, f2)) (hne : e ≠ Err.ok) : f2 = f := by
  unfold do_delete at h
  split at h
  · rw [Prod.mk.injEq] at h
    exact h.2.symm
  · split at h
    case _ => rw [Prod.mk.injEq] at h; exact h.2.symm
    case _ idx heqf =>
      obtain ⟨hlt, hval, hid⟩ := findMetadataIndex_some img_id f idx heqf
      dsimp only at h
      have hupd : updateMetadata idx { f with metadata := f.metadata.set idx { f.metadata.getD idx emptyMetadata with is_valid := 0 } } = (Err.ok, { f with metadata := f.metadata.set idx { f.metadata.getD idx emptyMetadata with is_valid := 0 }, diskSlots := f.diskSlots.set idx ((f.metadata.set idx { f.metadata.getD idx emptyMetadata with is_valid := 0 }).getD idx emptyMetadata) }) := by
        unfold updateMetadata
        rw [if_neg (show ¬ ({ f with metadata := f.metadata.set idx { f.metadata.getD idx emptyMetadata with is_valid := 0 } } : ImgstFile).header.max_files ≤ idx from by dsimp only; omega)]
      rw [hupd] at h
      dsimp only at h
      unfold updateHeader at h
      rw [Prod.mk.injEq] at h
      exact absurd h.1.symm hne

theorem do_delete_wf (img_id : String) (f : ImgstFile) (hwf : wf f) :
    wf (do_delete img_id f).2 := by
  obtain ⟨hlen, hcount, hmax⟩ := hwf
  rcases hres : do_delete img_id f with ⟨e, f2⟩
  by_cases he : e = Err.ok
  · subst he
    obtain ⟨idx, hfind, hnum0, hrange, hshape⟩ := do_delete_ok_shape img_id f f2 hres
    obtain ⟨hlt, hval, hid⟩ := findMetadataIndex_some img_id f idx hfind
    have hidxlen : idx < f.metadata.length := lt_length_of_getD_valid f.metadata idx hval
    have hset := countValid_set f.metadata idx
      { f.metadata.getD idx emptyMetadata with is_valid := 0 } hidxlen
    rw [if_neg hval] at hset
    rw [if_pos rfl] at hset
    dsimp only
    rw [hshape]
    refine ⟨?_, ?_, ?_⟩
    · show (f.metadata.set idx _).length = f.header.max_files
      rw [List.length_set]
      exact hlen
    · show f.header.num_files - 1 = countValid (f.metadata.set idx _)
      omega
    · exact hmax
  · dsimp only
    rw [do_delete_err img_id f e f2 hres he]
    exact ⟨hlen, hcount, hmax⟩

theorem reachable_wf : ∀ f, Reachable f → wf f := by
  intro f h
  induction h with
  | create mf rr hlt => exact wf_do_create mf rr hlt
  | insert hash getRes buf id g hr ih => exact do_insert_wf hash getRes buf id g ih
  | delete id g hr ih => exact do_delete_wf id g ih

theorem heapStart_pos (mf : Nat) : 0 < heapStart mf := by
  unfold heapStart HEADER_SIZE METADATA_SIZE
  omega

theorem findMetadataIndex_congr (img_id : String) (f g : ImgstFile)
    (hmax : f.header.max_files = g.header.max_files)
    (hpt : ∀ j, (f.metadata.getD j emptyMetadata).img_id
        = (g.metadata.getD j emptyMetadata).img_id ∧
      (f.metadata.getD j emptyMetadata).is_valid
        = (g.metadata.getD j emptyMetadata).is_valid) :
    findMetadataIndex img_id f = findMetadataIndex img_id g := by
  unfold findMetadataIndex validMetadataIndex
  have hp : (fun j =>
      let m := f.metadata.getD j emptyMetadata
      (m.img_id == img_id) && !(m.is_valid == 0)) = (fun j =>
      let m := g.metadata.getD j emptyMetadata
      (m.img_id == img_id) && !(m.is_valid == 0)) := by
    funext j
    dsimp only
    rw [(hpt j).1, (hpt j).2]
  rw [hp, hmax]
  dsimp only
  rw [(hpt (scanFrom (fun j =>
      let m := g.metadata.getD j emptyMetadata
      (m.img_id == img_id) && !(m.is_valid == 0)) 0 g.header.max_files)).2]

theorem lazily_resize_miss_ok (decode : List Nat → Option (Nat × Nat))
    (resizeEnc : List Nat → ℚ → Option (List Nat)) (res_code : Nat)
    (f : ImgstFile) (idx : Nat) (f1 : ImgstFile)
    (hres : res_code = RES_SMALL ∨ res_code = RES_THUMB)
    (hmiss : (f.metadata.getD idx emptyMetadata).offset.get res_code = 0)
    (h : lazily_resize decode resizeEnc res_code f idx = (.ok, f1)) :
    ∃ rb, rb ≠ [] ∧
      (f.metadata.getD idx emptyMetadata).is_valid ≠ 0 ∧
      idx < f.header.max_files ∧
      f1.metadata = f.metadata.set idx { f.metadata.getD idx emptyMetadata with
        offset := (f.metadata.getD idx emptyMetadata).offset.set res_code (fileEnd f),
        size := (f.metadata.getD idx emptyMetadata).size.set res_code (rb.length % U32) } ∧
      f1.header = f.header ∧ f1.heap = f.heap ++ rb := by
  have hnotorig : res_code ≠ RES_ORIG := by
    rcases hres with h1 | h1 <;> subst h1 <;> decide
  unfold lazily_resize at h
  rw [if_neg hnotorig, if_neg (not_not_intro hres)] at h
  split at h
  · simp at h
  · rename_i hvalidb
    rw [Bool.not_eq_true] at hvalidb
    rw [Bool.not_eq_false] at hvalidb
    have hvalid : idx < f.header.max_files ∧
        (f.metadata.getD idx emptyMetadata).is_valid ≠ 0 := by
      unfold validMetadataIndex at hvalidb
      simp only [Bool.and_eq_true, decide_eq_true_eq, Bool.not_eq_true',
        beq_eq_false_iff_ne] at hvalidb
      exact hvalidb
    rw [if_neg (not_not_intro hmiss)] at h
    dsimp only at h
    split at h
    · simp at h
    · rename_i origBytes hfread
      split at h
      · simp at h
      · rename_i w hv hdec
        split at h
        · simp at h
        · rename_i rb hrenc
          split at h
          · simp at h
          · rename_i hrb
            unfold updateMetadata at h
            split at h
            · simp at h
            · rw [Prod.mk.injEq] at h
              refine ⟨rb, hrb, hvalid.2, hvalid.1, ?_, ?_, ?_⟩ <;>
                rw [← h.2]

theorem getD_set_pointwise_field {β : Type} (proj : ImgMetadata → β)
    (l : List ImgMetadata) (i : Nat) (m : ImgMetadata)
    (hv : proj m = proj (l.getD i emptyMetadata)) :
    ∀ j, proj ((l.set i m).getD j emptyMetadata) = proj (l.getD j emptyMetadata) := by
  intro j
  by_cases hij : i = j
  · subst hij
    by_cases hrange : i < l.length
    · rw [getD_set_self _ _ _ _ hrange]; exact hv
    · rw [set_of_length_le _ _ _ (by omega)]
  · rw [getD_set_ne _ _ _ _ _ hij]

theorem exists_getD_of_mem (l : List ImgMetadata) (m : ImgMetadata) (h : m ∈ l) :
    ∃ t, t < l.length ∧ l.getD t emptyMetadata = m := by
  induction l with
  | nil => simp at h
  | cons a l ih =>
    rcases List.mem_cons.mp h with rfl | h2
    · exact ⟨0, by simp, by simp⟩
    · obtain ⟨t, ht, he⟩ := ih h2
      exact ⟨t + 1, by simpa using Nat.succ_lt_succ ht, by simpa using he⟩

theorem do_name_and_content_dedup_dup (f : ImgstFile) (index t : Nat)
    (hrange : ¬ f.header.max_files ≤ index)
    (ht : t < f.header.max_files) (htne : t ≠ index)
    (hvalid : (f.metadata.getD t emptyMetadata).is_valid ≠ 0)
    (hid : (f.metadata.getD t emptyMetadata).img_id
      = (f.metadata.getD index emptyMetadata).img_id) :
    ∃ cur', do_name_and_content_dedup f index
        = (Err.duplicateId, { f with metadata := f.metadata.set index cur' }) ∧
      cur'.is_valid = (f.metadata.getD index emptyMetadata).is_valid := by
  obtain ⟨cur', hscan⟩ := dedupScan_dup_error f.metadata index
    (f.metadata.getD index emptyMetadata).img_id
    (f.metadata.getD index emptyMetadata).sha 0 f.header.max_files
    (f.metadata.getD index emptyMetadata) false t (Nat.zero_le t) (by omega) htne hvalid hid
  have hframe := dedupScan_frame f.metadata index
    (f.metadata.getD index emptyMetadata).img_id
    (f.metadata.getD index emptyMetadata).sha 0 f.header.max_files
    (f.metadata.getD index emptyMetadata) false
  rw [hscan] at hframe
  simp only [dedupCur] at hframe
  refine ⟨cur', ?_, hframe.2.2.2.2⟩
  unfold do_name_and_content_dedup
  rw [if_neg hrange]
  dsimp only
  rw [hscan]

/-! ## Evaluation lemmas for the insert and read paths -/

theorem findMetadataIndex_eq (f : ImgstFile) (img_id : String) (t : Nat)
    (ht : t < f.header.max_files)
    (hvalid : (f.metadata.getD t emptyMetadata).is_valid ≠ 0)
    (hid : (f.metadata.getD t emptyMetadata).img_id = img_id)
    (hbefore : ∀ j, j < t →
      (f.metadata.getD j emptyMetadata).is_valid ≠ 0 →
      (f.metadata.getD j emptyMetadata).img_id ≠ img_id) :
    findMetadataIndex img_id f = some t := by
  unfold findMetadataIndex
  have hscan : scanFrom (fun j =>
      let m := f.metadata.getD j emptyMetadata
      (m.img_id == img_id) && !(m.is_valid == 0)) 0 f.header.max_files = t := by
    apply scanFrom_eq_of
    · exact Nat.zero_le t
    · omega
    · dsimp only
      rw [Bool.and_eq_true, beq_iff_eq, Bool.not_eq_true', beq_eq_false_iff_ne]
      exact ⟨hid, hvalid⟩
    · intro j hj0 hjt
      dsimp only
      by_cases hv : (f.metadata.getD j emptyMetadata).is_valid = 0
      · simp only [Bool.and_eq_false_iff, Bool.not_eq_false', beq_iff_eq]
        right
        exact hv
      · simp only [Bool.and_eq_false_iff, beq_eq_false_iff_ne]
        left
        exact hbefore j hjt hv
  dsimp only
  rw [hscan]
  unfold validMetadataIndex
  rw [if_pos (by
    rw [Bool.and_eq_true, decide_eq_true_eq, Bool.not_eq_true', beq_eq_false_iff_ne]
    exact ⟨ht, hvalid⟩)]

theorem do_read_orig_eq (decode : List Nat → Option (Nat × Nat))
    (resizeEnc : List Nat → ℚ → Option (List Nat)) (img_id : String)
    (f : ImgstFile) (idx : Nat) (b : List Nat)
    (hfind : findMetadataIndex img_id f = some idx)
    (hoff : ¬ (f.metadata.getD idx emptyMetadata).offset.get RES_ORIG = 0)
    (hread : fileReadAt f ((f.metadata.getD idx emptyMetadata).offset.get RES_ORIG)
      ((f.metadata.getD idx emptyMetadata).size.get RES_ORIG) = some b) :
    do_read decode resizeEnc img_id RES_ORIG f
      = (.ok, f, some b, (f.metadata.getD idx emptyMetadata).size.get RES_ORIG) := by
  unfold do_read
  rw [if_neg (not_not_intro (Or.inr (Or.inr rfl))), hfind]
  dsimp only
  rw [if_neg hoff]
  dsimp only
  rw [hread]

theorem metadata_eta (m : ImgMetadata) :
    m = { img_id := m.img_id, sha := m.sha, res_orig_w := m.res_orig_w,
          res_orig_h := m.res_orig_h, size := m.size, offset := m.offset,
          is_valid := m.is_valid } := rfl

theorem dedup_fresh_eq (f : ImgstFile) (index : Nat)
    (hrange : ¬ f.header.max_files ≤ index)
    (hnodup : ∀ j, j < f.header.max_files → j ≠ index →
      (f.metadata.getD j emptyMetadata).is_valid ≠ 0 →
      (f.metadata.getD j emptyMetadata).img_id ≠ (f.metadata.getD index emptyMetadata).img_id)
    (hnosha : ∀ j, j < f.header.max_files → j ≠ index →
      (f.metadata.getD j emptyMetadata).is_valid ≠ 0 →
      (f.metadata.getD j emptyMetadata).sha ≠ (f.metadata.getD index emptyMetadata).sha) :
    do_name_and_content_dedup f index = (.ok, { f with metadata := f.metadata.set index { f.metadata.getD index emptyMetadata with offset := (f.metadata.getD index emptyMetadata).offset.set RES_ORIG 0 } }) := by
  unfold do_name_and_content_dedup
  rw [if_neg hrange]
  dsimp only
  have hscan := dedupScan_all_clean f.metadata index
    (f.metadata.getD index emptyMetadata).img_id (f.metadata.getD index emptyMetadata).sha
    0 f.header.max_files (f.metadata.getD index emptyMetadata) false
    (by intro j h1 h2 h3 h4; exact ⟨hnodup j (by omega) h3 h4, hnosha j (by omega) h3 h4⟩)
  rw [hscan]
  dsimp only
  rw [if_neg Bool.false_ne_true]

theorem dedup_clone_eq (f : ImgstFile) (index : Nat)
    (hrange : ¬ f.header.max_files ≤ index)
    (hnodup : ∀ j, j < f.header.max_files → j ≠ index →
      (f.metadata.getD j emptyMetadata).is_valid ≠ 0 →
      (f.metadata.getD j emptyMetadata).img_id ≠ (f.metadata.getD index emptyMetadata).img_id)
    (hex : ∃ j, j < f.header.max_files ∧ j ≠ index ∧
      (f.metadata.getD j emptyMetadata).is_valid ≠ 0 ∧
      (f.metadata.getD j emptyMetadata).sha = (f.metadata.getD index emptyMetadata).sha) :
    ∃ m ∈ f.metadata, m.is_valid ≠ 0 ∧
      m.sha = (f.metadata.getD index emptyMetadata).sha ∧
      do_name_and_content_dedup f index = (.ok, { f with metadata := f.metadata.set index { f.metadata.getD index emptyMetadata with offset := m.offset, size := m.size } }) := by
  obtain ⟨j, hj1, hj2, hj3, hj4⟩ := hex
  obtain ⟨cur', hscan, m, hm, hmv, hmsha, hoff, hsz⟩ :=
    dedupScan_clone f.metadata index
      (f.metadata.getD index emptyMetadata).img_id (f.metadata.getD index emptyMetadata).sha
      0 f.header.max_files (f.metadata.getD index emptyMetadata) false
      (by intro k h1 h2 h3 h4; exact hnodup k (by omega) h3 h4)
      (by intro h; exact absurd h Bool.false_ne_true)
      (Or.inl ⟨j, Nat.zero_le j, by omega, hj2, hj3, hj4⟩)
  have hframe := dedupScan_frame f.metadata index
    (f.metadata.getD index emptyMetadata).img_id (f.metadata.getD index emptyMetadata).sha
    0 f.header.max_files (f.metadata.getD index emptyMetadata) false
  rw [hscan] at hframe
  obtain ⟨hf1, hf2, hf3, hf4, hf5⟩ := hframe
  have hcur : cur' = { f.metadata.getD index emptyMetadata with offset := m.offset, size := m.size } := by
    rw [metadata_eta cur']
    simp only [dedupCur] at hf1 hf2 hf3 hf4 hf5
    rw [hf1, hf2, hf3, hf4, hf5, hoff, hsz]
  refine ⟨m, hm, hmv, hmsha, ?_⟩
  unfold do_name_and_content_dedup
  rw [if_neg hrange]
  dsimp only
  rw [hscan]
  dsimp only
  rw [if_pos rfl, hcur]

theorem insert_ctx_dedup_fresh (hash : List Nat → List Nat) (buf : List Nat) (X : String)
    (f : ImgstFile) (hwf : wf f) (hnum : f.header.num_files < f.header.max_files)
    (hfreshid : ∀ m ∈ f.metadata, m.is_valid ≠ 0 → m.img_id ≠ X)
    (hfreshsha : ∀ m ∈ f.metadata, m.is_valid ≠ 0 → m.sha ≠ hash buf) :
    do_name_and_content_dedup { f with metadata := f.metadata.set (freeSlotIndex f) { f.metadata.getD (freeSlotIndex f) emptyMetadata with sha := hash buf, img_id := X } } (freeSlotIndex f)
      = (.ok, { f with metadata := f.metadata.set (freeSlotIndex f) { f.metadata.getD (freeSlotIndex f) emptyMetadata with sha := hash buf, img_id := X, offset := (f.metadata.getD (freeSlotIndex f) emptyMetadata).offset.set RES_ORIG 0 } }) := by
  obtain ⟨hi1, hfree⟩ := freeSlotIndex_spec f hwf hnum
  obtain ⟨hlen, hcount, hmaxlt⟩ := hwf
  have hi1len : freeSlotIndex f < f.metadata.length := by omega
  have hg : (f.metadata.set (freeSlotIndex f) { f.metadata.getD (freeSlotIndex f) emptyMetadata with sha := hash buf, img_id := X }).getD (freeSlotIndex f) emptyMetadata = { f.metadata.getD (freeSlotIndex f) emptyMetadata with sha := hash buf, img_id := X } :=
    getD_set_self _ _ _ _ hi1len
  refine (dedup_fresh_eq _ (freeSlotIndex f) ?_ ?_ ?_).trans ?_
  · dsimp only
    omega
  · intro j hj hne hval
    dsimp only at hj hval ⊢
    rw [getD_set_ne _ _ _ _ _ (fun he => hne he.symm)] at hval ⊢
    rw [hg]
    exact hfreshid _ (getD_mem f.metadata j emptyMetadata (lt_length_of_getD_valid f.metadata j hval)) hval
  · intro j hj hne hval
    dsimp only at hj hval ⊢
    rw [getD_set_ne _ _ _ _ _ (fun he => hne he.symm)] at hval ⊢
    rw [hg]
    exact hfreshsha _ (getD_mem f.metadata j emptyMetadata (lt_length_of_getD_valid f.metadata j hval)) hval
  · dsimp only
    rw [hg, List.set_set]

theorem insert_ctx_dedup_clone (hash : List Nat → List Nat) (buf : List Nat) (X : String)
    (f : ImgstFile) (hwf : wf f) (hnum : f.header.num_files < f.header.max_files)
    (hfreshid : ∀ m ∈ f.metadata, m.is_valid ≠ 0 → m.img_id ≠ X)
    (hex : ∃ m ∈ f.metadata, m.is_valid ≠ 0 ∧ m.sha = hash buf) :
    ∃ m ∈ f.metadata, m.is_valid ≠ 0 ∧ m.sha = hash buf ∧
      do_name_and_content_dedup { f with metadata := f.metadata.set (freeSlotIndex f) { f.metadata.getD (freeSlotIndex f) emptyMetadata with sha := hash buf, img_id := X } } (freeSlotIndex f)
        = (.ok, { f with metadata := f.metadata.set (freeSlotIndex f) { f.metadata.getD (freeSlotIndex f) emptyMetadata with sha := hash buf, img_id := X, offset := m.offset, size := m.size } }) := by
  obtain ⟨hi1, hfree⟩ := freeSlotIndex_spec f hwf hnum
  obtain ⟨hlen, hcount, hmaxlt⟩ := hwf
  have hi1len : freeSlotIndex f < f.metadata.length := by omega
  have hg : (f.metadata.set (freeSlotIndex f) { f.metadata.getD (freeSlotIndex f) emptyMetadata with sha := hash buf, img_id := X }).getD (freeSlotIndex f) emptyMetadata = { f.metadata.getD (freeSlotIndex f) emptyMetadata with sha := hash buf, img_id := X } :=
    getD_set_self _ _ _ _ hi1len
  obtain ⟨m0, hm0, hm0v, hm0sha⟩ := hex
  obtain ⟨t, htlen, htg⟩ := exists_getD_of_mem f.metadata m0 hm0
  have htne : t ≠ freeSlotIndex f := by
    intro he
    rw [he] at htg
    rw [← htg] at hm0v
    exact hm0v hfree
  obtain ⟨m, hm, hmv, hmsha, heq⟩ := dedup_clone_eq
    { f with metadata := f.metadata.set (freeSlotIndex f) { f.metadata.getD (freeSlotIndex f) emptyMetadata with sha := hash buf, img_id := X } }
    (freeSlotIndex f)
    (by dsimp only; omega)
    (by
      intro j hj hne hval
      dsimp only at hj hval ⊢
      rw [getD_set_ne _ _ _ _ _ (fun he => hne he.symm)] at hval ⊢
      rw [hg]
      exact hfreshid _ (getD_mem f.metadata j emptyMetadata (lt_length_of_getD_valid f.metadata j hval)) hval)
    (by
      refine ⟨t, ?_, htne, ?_, ?_⟩
      · dsimp only; omega
      · dsimp only
        rw [getD_set_ne _ _ _ _ _ (fun he => htne he.symm), htg]
        exact hm0v
      · dsimp only
        rw [getD_set_ne _ _ _ _ _ (fun he => htne he.symm), htg, hg]
        exact hm0sha)
  rw [hg] at hmsha heq
  dsimp only at hm
  rcases List.mem_or_eq_of_mem_set hm with hmf | hmeq
  · refine ⟨m, hmf, hmv, hmsha, ?_⟩
    rw [heq]
    rw [List.set_set]
  · exfalso
    rw [hmeq] at hmv
    dsimp only at hmv
    rw [hfree] at hmv
    simp at hmv

theorem do_insert_fresh_ok (hash : List Nat → List Nat) (getRes : List Nat → Option (Nat × Nat))
    (buf : List Nat) (X : String) (w h : Nat) (f : ImgstFile)
    (hwf : wf f) (hnum : f.header.num_files < f.header.max_files)
    (hfreshid : ∀ m ∈ f.metadata, m.is_valid ≠ 0 → m.img_id ≠ X)
    (hfreshsha : ∀ m ∈ f.metadata, m.is_valid ≠ 0 → m.sha ≠ hash buf)
    (hbuf : buf ≠ []) (hgr : getRes buf = some (w, h)) :
    do_insert hash getRes buf X f = (.ok, insertResult f (freeSlotIndex f) { img_id := X, sha := hash buf, res_orig_w := w, res_orig_h := h, size := (f.metadata.getD (freeSlotIndex f) emptyMetadata).size.set RES_ORIG (buf.length % U32), offset := (f.metadata.getD (freeSlotIndex f) emptyMetadata).offset.set RES_ORIG (fileEnd f), is_valid := 1 } (f.heap ++ buf)) := by
  obtain ⟨hi1, hfree⟩ := freeSlotIndex_spec f hwf hnum
  have hi1len : freeSlotIndex f < f.metadata.length := by
    obtain ⟨hlen, _, _⟩ := hwf
    omega
  unfold do_insert
  rw [if_neg (by omega)]
  dsimp only
  rw [insert_ctx_dedup_fresh hash buf X f hwf hnum hfreshid hfreshsha]
  dsimp only
  simp only [List.set_set, getD_set_self _ _ _ _ hi1len]
  rw [if_pos (by simp)]
  rw [if_neg hbuf, hgr]
  dsimp only
  simp only [List.set_set, getD_set_self _ _ _ _ hi1len]
  unfold updateHeader updateMetadata
  rw [if_neg (by dsimp only; omega)]
  dsimp only
  simp only [List.set_set, getD_set_self _ _ _ _ hi1len]
  unfold insertResult
  dsimp only
  simp only [ResArr.set_orig_eq, fileEnd]

theorem do_insert_fresh_emptybuf (hash : List Nat → List Nat) (getRes : List Nat → Option (Nat × Nat))
    (X : String) (f : ImgstFile)
    (hwf : wf f) (hnum : f.header.num_files < f.header.max_files)
    (hfreshid : ∀ m ∈ f.metadata, m.is_valid ≠ 0 → m.img_id ≠ X)
    (hfreshsha : ∀ m ∈ f.metadata, m.is_valid ≠ 0 → m.sha ≠ hash []) :
    (do_insert hash getRes [] X f).1 = Err.ioErr := by
  have hi1len : freeSlotIndex f < f.metadata.length := by
    obtain ⟨hi1, _⟩ := freeSlotIndex_spec f hwf hnum
    obtain ⟨hlen, _, _⟩ := hwf
    omega
  unfold do_insert
  rw [if_neg (by omega)]
  dsimp only
  rw [insert_ctx_dedup_fresh hash [] X f hwf hnum hfreshid hfreshsha]
  dsimp only
  simp only [List.set_set, getD_set_self _ _ _ _ hi1len]
  rw [if_pos (by simp)]
  simp

theorem do_insert_fresh_nores (hash : List Nat → List Nat) (getRes : List Nat → Option (Nat × Nat))
    (buf : List Nat) (X : String) (f : ImgstFile)
    (hwf : wf f) (hnum : f.header.num_files < f.header.max_files)
    (hfreshid : ∀ m ∈ f.metadata, m.is_valid ≠ 0 → m.img_id ≠ X)
    (hfreshsha : ∀ m ∈ f.metadata, m.is_valid ≠ 0 → m.sha ≠ hash buf)
    (hbuf : buf ≠ []) (hgr : getRes buf = none) :
    (do_insert hash getRes buf X f).1 = Err.imglib := by
  have hi1len : freeSlotIndex f < f.metadata.length := by
    obtain ⟨hi1, _⟩ := freeSlotIndex_spec f hwf hnum
    obtain ⟨hlen, _, _⟩ := hwf
    omega
  unfold do_insert
  rw [if_neg (by omega)]
  dsimp only
  rw [insert_ctx_dedup_fresh hash buf X f hwf hnum hfreshid hfreshsha]
  dsimp only
  simp only [List.set_set, getD_set_self _ _ _ _ hi1len]
  rw [if_pos (by simp)]
  rw [if_neg hbuf, hgr]

theorem do_insert_alias_ok_of_offsets (hash : List Nat → List Nat)
    (getRes : List Nat → Option (Nat × Nat))
    (buf : List Nat) (X : String) (w h : Nat) (f : ImgstFile)
    (hwf : wf f)
    (hnum : f.header.num_files < f.header.max_files)
    (hfreshid : ∀ m ∈ f.metadata, m.is_valid ≠ 0 → m.img_id ≠ X)
    (hoffs : ∀ m ∈ f.metadata, m.is_valid ≠ 0 → m.sha = hash buf → m.offset.get RES_ORIG ≠ 0)
    (hex : ∃ m ∈ f.metadata, m.is_valid ≠ 0 ∧ m.sha = hash buf)
    (hgr : getRes buf = some (w, h)) :
    ∃ m ∈ f.metadata, m.is_valid ≠ 0 ∧ m.sha = hash buf ∧
      do_insert hash getRes buf X f = (.ok, insertResult f (freeSlotIndex f) { img_id := X, sha := hash buf, res_orig_w := w, res_orig_h := h, size := m.size.set RES_ORIG (buf.length % U32), offset := m.offset, is_valid := 1 } f.heap) := by
  obtain ⟨hi1, hfree⟩ := freeSlotIndex_spec f hwf hnum
  have hi1len : freeSlotIndex f < f.metadata.length := by
    obtain ⟨hlen, _, _⟩ := hwf
    omega
  obtain ⟨m, hm, hmv, hmsha, hded⟩ := insert_ctx_dedup_clone hash buf X f hwf hnum hfreshid hex
  have hoffm : m.offset.get RES_ORIG ≠ 0 := hoffs m hm hmv hmsha
  refine ⟨m, hm, hmv, hmsha, ?_⟩
  unfold do_insert
  rw [if_neg (by omega)]
  dsimp only
  rw [hded]
  dsimp only
  simp only [List.set_set, getD_set_self _ _ _ _ hi1len]
  rw [if_neg (by simp; exact hoffm)]
  rw [hgr]
  dsimp only
  simp only [List.set_set, getD_set_self _ _ _ _ hi1len]
  unfold updateHeader updateMetadata
  rw [if_neg (by dsimp only; omega)]
  dsimp only
  simp only [List.set_set, getD_set_self _ _ _ _ hi1len]
  unfold insertResult
  dsimp only

theorem do_insert_alias_ok (hash : List Nat → List Nat) (getRes : List Nat → Option (Nat × Nat))
    (buf : List Nat) (X : String) (w h : Nat) (f : ImgstFile)
    (hwf : wf f) (hranges : slotRangesOk f)
    (hnum : f.header.num_files < f.header.max_files)
    (hfreshid : ∀ m ∈ f.metadata, m.is_valid ≠ 0 → m.img_id ≠ X)
    (hex : ∃ m ∈ f.metadata, m.is_valid ≠ 0 ∧ m.sha = hash buf)
    (hgr : getRes buf = some (w, h)) :
    ∃ m ∈ f.metadata, m.is_valid ≠ 0 ∧ m.sha = hash buf ∧
      do_insert hash getRes buf X f = (.ok, insertResult f (freeSlotIndex f) { img_id := X, sha := hash buf, res_orig_w := w, res_orig_h := h, size := m.size.set RES_ORIG (buf.length % U32), offset := m.offset, is_valid := 1 } f.heap) :=
  do_insert_alias_ok_of_offsets hash getRes buf X w h f hwf hnum hfreshid
    (fun m hm hmv _ => by
      have := (hranges m hm hmv).1
      have := heapStart_pos f.header.max_files
      omega)
    hex hgr

theorem do_insert_alias_nores (hash : List Nat → List Nat) (getRes : List Nat → Option (Nat × Nat))
    (buf : List Nat) (X : String) (f : ImgstFile)
    (hwf : wf f) (hranges : slotRangesOk f)
    (hnum : f.header.num_files < f.header.max_files)
    (hfreshid : ∀ m ∈ f.metadata, m.is_valid ≠ 0 → m.img_id ≠ X)
    (hex : ∃ m ∈ f.metadata, m.is_valid ≠ 0 ∧ m.sha = hash buf)
    (hgr : getRes buf = none) :
    (do_insert hash getRes buf X f).1 = Err.imglib := by
  obtain ⟨hi1, hfree⟩ := freeSlotIndex_spec f hwf hnum
  have hi1len : freeSlotIndex f < f.metadata.length := by
    obtain ⟨hlen, _, _⟩ := hwf
    omega
  obtain ⟨m, hm, hmv, hmsha, hded⟩ := insert_ctx_dedup_clone hash buf X f hwf hnum hfreshid hex
  have hoffm : m.offset.get RES_ORIG ≠ 0 := by
    have := (hranges m hm hmv).1
    have := heapStart_pos f.header.max_files
    omega
  unfold do_insert
  rw [if_neg (by omega)]
  dsimp only
  rw [hded]
  dsimp only
  simp only [List.set_set, getD_set_self _ _ _ _ hi1len]
  rw [if_neg (by simp; exact hoffm)]
  rw [hgr]

theorem read_insertResult (decode : List Nat → Option (Nat × Nat))
    (resizeEnc : List Nat → ℚ → Option (List Nat)) (X : String) (f : ImgstFile)
    (slot : ImgMetadata) (heap2 b : List Nat)
    (hlen : f.metadata.length = f.header.max_files)
    (hi1 : freeSlotIndex f < f.header.max_files)
    (hfresh : ∀ m ∈ f.metadata, m.is_valid ≠ 0 → m.img_id ≠ X)
    (hslotid : slot.img_id = X) (hslotvalid : slot.is_valid ≠ 0)
    (hoff : ¬ slot.offset.get RES_ORIG = 0)
    (hread : fileReadAt (insertResult f (freeSlotIndex f) slot heap2)
      (slot.offset.get RES_ORIG) (slot.size.get RES_ORIG) = some b) :
    do_read decode resizeEnc X RES_ORIG (insertResult f (freeSlotIndex f) slot heap2)
      = (.ok, insertResult f (freeSlotIndex f) slot heap2, some b, slot.size.get RES_ORIG) := by
  have hi1len : freeSlotIndex f < f.metadata.length := by omega
  have hgslot : ((insertResult f (freeSlotIndex f) slot heap2).metadata.getD (freeSlotIndex f) emptyMetadata) = slot := by
    show ((f.metadata.set (freeSlotIndex f) slot).getD (freeSlotIndex f) emptyMetadata) = slot
    exact getD_set_self _ _ _ _ hi1len
  have hfind : findMetadataIndex X (insertResult f (freeSlotIndex f) slot heap2) = some (freeSlotIndex f) := by
    apply findMetadataIndex_eq (insertResult f (freeSlotIndex f) slot heap2) X (freeSlotIndex f) hi1
    · rw [hgslot]
      exact hslotvalid
    · rw [hgslot]
      exact hslotid
    · intro j hj hval
      have hne : freeSlotIndex f ≠ j := by omega
      show ((f.metadata.set (freeSlotIndex f) slot).getD j emptyMetadata).img_id ≠ X
      rw [getD_set_ne _ _ _ _ _ hne]
      rw [show ((insertResult f (freeSlotIndex f) slot heap2).metadata.getD j emptyMetadata) = ((f.metadata.set (freeSlotIndex f) slot).getD j emptyMetadata) from rfl, getD_set_ne _ _ _ _ _ hne] at hval
      have hjlen : j < f.metadata.length := lt_length_of_getD_valid f.metadata j hval
      exact hfresh _ (getD_mem f.metadata j emptyMetadata hjlen) hval
  have := do_read_orig_eq decode resizeEnc X (insertResult f (freeSlotIndex f) slot heap2)
    (freeSlotIndex f) b hfind (by rw [hgslot]; exact hoff) (by rw [hgslot]; exact hread)
  rw [hgslot] at this
  exact this

theorem do_insert_alias_unique (hash : List Nat → List Nat)
    (getRes : List Nat → Option (Nat × Nat)) (buf : List Nat) (Y : String) (w h : Nat)
    (g : ImgstFile) (t : Nat)
    (hwfg : wf g) (hrangesg : slotRangesOk g)
    (hnumg : g.header.num_files < g.header.max_files)
    (hfreshidY : ∀ m ∈ g.metadata, m.is_valid ≠ 0 → m.img_id ≠ Y)
    (hvalid : (g.metadata.getD t emptyMetadata).is_valid ≠ 0)
    (hsha : (g.metadata.getD t emptyMetadata).sha = hash buf)
    (huniq : ∀ m ∈ g.metadata, m.is_valid ≠ 0 → m.sha = hash buf → m = g.metadata.getD t emptyMetadata)
    (hgr : getRes buf = some (w, h)) :
    do_insert hash getRes buf Y g = (.ok, insertResult g (freeSlotIndex g) { img_id := Y, sha := hash buf, res_orig_w := w, res_orig_h := h, size := (g.metadata.getD t emptyMetadata).size.set RES_ORIG (buf.length % U32), offset := (g.metadata.getD t emptyMetadata).offset, is_valid := 1 } g.heap) := by
  obtain ⟨m, hm, hmv, hmsha, heq⟩ := do_insert_alias_ok hash getRes buf Y w h g
    hwfg hrangesg hnumg hfreshidY
    ⟨g.metadata.getD t emptyMetadata,
      getD_mem g.metadata t emptyMetadata (lt_length_of_getD_valid g.metadata t hvalid),
      hvalid, hsha⟩ hgr
  rw [huniq m hm hmv hmsha] at heq
  exact heq

theorem do_insert_alias_unique_of_offset (hash : List Nat → List Nat)
    (getRes : List Nat → Option (Nat × Nat)) (buf : List Nat) (Y : String) (w h : Nat)
    (g : ImgstFile) (t : Nat)
    (hwfg : wf g)
    (hnumg : g.header.num_files < g.header.max_files)
    (hfreshidY : ∀ m ∈ g.metadata, m.is_valid ≠ 0 → m.img_id ≠ Y)
    (hvalid : (g.metadata.getD t emptyMetadata).is_valid ≠ 0)
    (hsha : (g.metadata.getD t emptyMetadata).sha = hash buf)
    (huniq : ∀ m ∈ g.metadata, m.is_valid ≠ 0 → m.sha = hash buf → m = g.metadata.getD t emptyMetadata)
    (hoff : (g.metadata.getD t emptyMetadata).offset.get RES_ORIG ≠ 0)
    (hgr : getRes buf = some (w, h)) :
    do_insert hash getRes buf Y g = (.ok, insertResult g (freeSlotIndex g) { img_id := Y, sha := hash buf, res_orig_w := w, res_orig_h := h, size := (g.metadata.getD t emptyMetadata).size.set RES_ORIG (buf.length % U32), offset := (g.metadata.getD t emptyMetadata).offset, is_valid := 1 } g.heap) := by
  obtain ⟨m, hm, hmv, hmsha, heq⟩ := do_insert_alias_ok_of_offsets hash getRes buf Y w h g
    hwfg hnumg hfreshidY
    (fun m hm hmv hmsha => by rw [huniq m hm hmv hmsha]; exact hoff)
    ⟨g.metadata.getD t emptyMetadata,
      getD_mem g.metadata t emptyMetadata (lt_length_of_getD_valid g.metadata t hvalid),
      hvalid, hsha⟩ hgr
  rw [huniq m hm hmv hmsha] at heq
  exact heq

theorem do_delete_eq (img_id : String) (f : ImgstFile) (idx : Nat)
    (hnum : ¬ f.header.num_files = 0)
    (hfind : findMetadataIndex img_id f = some idx)
    (hrange : ¬ f.header.max_files ≤ idx) :
    do_delete img_id f = (.ok, deleteResultRaw f idx) := by
  unfold do_delete
  rw [if_neg hnum, hfind]
  dsimp only
  unfold updateMetadata
  rw [if_neg (by dsimp only; exact hrange)]
  dsimp only
  unfold updateHeader
  rfl

theorem do_read_zero_size (decode : List Nat → Option (Nat × Nat))
    (resizeEnc : List Nat → ℚ → Option (List Nat)) (Z : String)
    (g : ImgstFile) (t : Nat)
    (hfind : findMetadataIndex Z g = some t)
    (hoff : ¬ (g.metadata.getD t emptyMetadata).offset.get RES_ORIG = 0)
    (hsz : (g.metadata.getD t emptyMetadata).size.get RES_ORIG = 0) :
    do_read decode resizeEnc Z RES_ORIG g = (.ioErr, g, none, 0) := by
  unfold do_read
  rw [if_neg (not_not_intro (Or.inr (Or.inr rfl))), hfind]
  dsimp only
  rw [if_neg hoff]
  dsimp only
  rw [hsz]
  rw [show fileReadAt g ((g.metadata.getD t emptyMetadata).offset.get RES_ORIG) 0 = none from by
    unfold fileReadAt
    rw [if_neg (fun hc => hc.1 rfl)]]

/-! ## Claim C6: insert on a full store -/

/-- C6: for every store with `num_files >= max_files`, `do_insert`
fails with ERR_FULL_IMGSTORE before scanning for a free slot or
mutating anything — the returned state is exactly the input store, so
`num_files` is unchanged by the failed attempt. -/
theorem insert_full_store_rejected (hash : List Nat → List Nat)
    (getRes : List Nat → Option (Nat × Nat)) (image_buffer : List Nat)
    (img_id : String) (f : ImgstFile)
    (h : f.header.max_files ≤ f.header.num_files) :
    do_insert hash getRes image_buffer img_id f = (.fullImgstore, f) := by
  unfold do_insert
  rw [if_pos h]

/-- C6 witness: a store created with `max_files = 1`, after one
successful insert, rejects a second insert with Full and keeps
`num_files = 1`. -/
theorem insert_full_store_rejected_witness :
    store1x.header.max_files ≤ store1x.header.num_files ∧
    do_insert hashId getResUnit [8] "y" store1x = (.fullImgstore, store1x) ∧
    store1x.header.num_files = 1 :=
  ⟨by decide,
   insert_full_store_rejected hashId getResUnit [8] "y" store1x (by decide),
   by decide⟩

/-! ## Claim C4: the shrink ratio -/

/-- C4 counterexample: a cache-miss materialization of the THUMBNAIL
variant for a 10x10 original in a 64x64 target box hands the codec a
shrink ratio strictly greater than 1 (the probe encoder appends `[1]`
to the heap exactly when the ratio it receives exceeds 1), so the
claim's "this ratio never exceeds 1 … never larger than the original
dimensions" is false: images smaller than the box are enlarged. -/
theorem shrink_ratio_above_one_cex :
    (lazily_resize decode10 rencProbe RES_THUMB storeX7 0).1 = Err.ok ∧
    (lazily_resize decode10 rencProbe RES_THUMB storeX7 0).2.heap = storeX7.heap ++ [1] ∧
    1 < shrink_value 10 10 64 64 := by
  have hr : 1 < shrink_value 10 10 64 64 := by norm_num [shrink_value]
  refine ⟨?_, ?_, hr⟩ <;>
  · simp only [lazily_resize, decode10, rencProbe, storeX7, headerX7, slotX7,
      validMetadataIndex, fileReadAt, heapStart, fileEnd, updateMetadata,
      HEADER_SIZE, METADATA_SIZE, RES_THUMB, RES_SMALL, RES_ORIG,
      ResArr.get, ResArr.set, emptyMetadata]
    norm_num
    rw [if_pos hr]
    simp [U32]

/-- C4 amended: the ratio is `min(targetW/srcW, targetH/srcH)`, the
same on both axes (so aspect ratio is preserved); it is at most 1 —
and then the scaled dimensions do not exceed the original — whenever
the original is at least as wide or as tall as the target box, while
for an original strictly smaller than the box in both axes the ratio
strictly exceeds 1 (enlargement). -/
theorem shrink_value_char (w h tw th : Nat) (hw : 0 < w) (hh : 0 < h) :
    shrink_value w h tw th = min ((tw : ℚ) / w) ((th : ℚ) / h) ∧
    ((tw ≤ w ∨ th ≤ h) →
      shrink_value w h tw th ≤ 1 ∧
      shrink_value w h tw th * w ≤ w ∧ shrink_value w h tw th * h ≤ h) ∧
    (w < tw → h < th → 1 < shrink_value w h tw th) := by
  have hw2 : (0 : ℚ) < w := by exact_mod_cast hw
  have hh2 : (0 : ℚ) < h := by exact_mod_cast hh
  have hmin : shrink_value w h tw th = min ((tw : ℚ) / w) ((th : ℚ) / h) := by
    unfold shrink_value
    rcases lt_or_le ((th : ℚ) / h) ((tw : ℚ) / w) with hc | hc
    · rw [if_pos hc, min_eq_right (le_of_lt hc)]
    · rw [if_neg (not_lt.mpr hc), min_eq_left hc]
  refine ⟨hmin, ?_, ?_⟩
  · intro hcase
    have h1 : shrink_value w h tw th ≤ 1 := by
      rw [hmin]
      rcases hcase with hc | hc
      · refine le_trans (min_le_left _ _) ?_
        rw [div_le_one hw2]
        exact_mod_cast hc
      · refine le_trans (min_le_right _ _) ?_
        rw [div_le_one hh2]
        exact_mod_cast hc
    refine ⟨h1, ?_, ?_⟩
    · calc shrink_value w h tw th * w ≤ 1 * w :=
            mul_le_mul_of_nonneg_right h1 (le_of_lt hw2)
        _ = w := one_mul _
    · calc shrink_value w h tw th * h ≤ 1 * h :=
            mul_le_mul_of_nonneg_right h1 (le_of_lt hh2)
        _ = h := one_mul _
  · intro h1 h2
    rw [hmin]
    apply lt_min
    · rw [one_lt_div hw2]; exact_mod_cast h1
    · rw [one_lt_div hh2]; exact_mod_cast h2

/-- C4 witness: the amended characterization applied to a 100x40
original and a 64x64 target box. -/
theorem shrink_value_char_witness :
    shrink_value 100 40 64 64 = min (((64 : Nat) : ℚ) / ((100 : Nat) : ℚ)) (((64 : Nat) : ℚ) / ((40 : Nat) : ℚ)) ∧
    (((64 : Nat) ≤ 100 ∨ (64 : Nat) ≤ 40) →
      shrink_value 100 40 64 64 ≤ 1 ∧
      shrink_value 100 40 64 64 * ((100 : Nat) : ℚ) ≤ ((100 : Nat) : ℚ) ∧
      shrink_value 100 40 64 64 * ((40 : Nat) : ℚ) ≤ ((40 : Nat) : ℚ)) ∧
    ((100 : Nat) < 64 → (40 : Nat) < 64 → 1 < shrink_value 100 40 64 64) :=
  shrink_value_char 100 40 64 64 (by norm_num) (by norm_num)

/-! ## Claim C8: opening a truncated file -/

/-- C8 amended: `do_open` reads one header, then requests exactly
`header.max_files` slot records; on a truncated file (fewer complete
records than `max_files`) it fails — but with ERR_IO, the very same
error kind returned when the file cannot be opened at all: the error
enumeration has no distinct Corrupt kind. -/
theorem do_open_truncated (slots : List ImgMetadata) (hp : List Nat)
    (h : ImgstHeader) (mode : String)
    (hmode : mode = "rb" ∨ mode = "rb+")
    (htrunc : slots.length < h.max_files) :
    do_open (some ⟨some h, slots, hp⟩) mode = (Err.ioErr, none) ∧
    do_open none mode = (Err.ioErr, none) := by
  constructor
  · unfold do_open
    rw [if_neg (not_not_intro hmode)]
    dsimp only
    rw [min_eq_left (le_of_lt htrunc), if_pos (by omega)]
  · unfold do_open
    rw [if_neg (not_not_intro hmode)]

/-- C8 witness for the amended claim: a file whose header announces two
slots but which holds one complete record. -/
theorem do_open_truncated_witness :
    ([emptyMetadata] : List ImgMetadata).length < truncHeader.max_files ∧
    (do_open (some ⟨some truncHeader, [emptyMetadata], []⟩) "rb" = (Err.ioErr, none) ∧
     do_open none "rb" = (Err.ioErr, none)) :=
  ⟨by decide,
   do_open_truncated [emptyMetadata] [] truncHeader "rb" (Or.inl rfl) (by decide)⟩

/-- C8 counterexample: on the concrete truncated file the error
returned is ERR_IO — identical to the error kind for an unopenable
file — refuting the claim that truncation yields a Corrupt kind
distinct from the IO kind. -/
theorem do_open_truncated_not_distinct_cex :
    (do_open (some ⟨some truncHeader, [emptyMetadata], []⟩) "rb").1 = Err.ioErr ∧
    (do_open none "rb").1 = Err.ioErr ∧
    (do_open (some ⟨some truncHeader, [emptyMetadata], []⟩) "rb").1 = (do_open none "rb").1 := by
  decide

/-! ## Claim C9: the version counter -/

/-- C9 amended: every successful insert and every successful delete
bumps the header version by exactly one (`uint32_t` arithmetic), but
variant materialization does NOT: `lazily_resize` mutates the slot and
persists it without ever touching the header, so its version (and the
whole header) is unchanged on every path. -/
theorem version_counter_on_mutations :
    (∀ (hash : List Nat → List Nat) (getRes : List Nat → Option (Nat × Nat))
        (buf : List Nat) (img_id : String) (f f' : ImgstFile),
        do_insert hash getRes buf img_id f = (.ok, f') →
        f'.header.imgst_version = (f.header.imgst_version + 1) % U32) ∧
    (∀ (img_id : String) (f f' : ImgstFile),
        do_delete img_id f = (.ok, f') →
        f'.header.imgst_version = (f.header.imgst_version + 1) % U32) ∧
    (∀ (decode : List Nat → Option (Nat × Nat))
        (resizeEnc : List Nat → ℚ → Option (List Nat))
        (res_code : Nat) (f : ImgstFile) (idx : Nat),
        ((lazily_resize decode resizeEnc res_code f idx).2).header = f.header) := by
  refine ⟨?_, ?_, ?_⟩
  · intro hash getRes buf img_id f f' h
    exact (do_insert_ok_header hash getRes buf img_id f f' h).1
  · intro img_id f f' h
    obtain ⟨idx, -, -, -, hshape⟩ := do_delete_ok_shape img_id f f' h
    rw [hshape]
    rfl
  · intro decode resizeEnc res_code f idx
    obtain ⟨l2, ds2, hp2, he⟩ := lazily_resize_frame decode resizeEnc res_code f idx
    rw [he]

/-- C9 witness: the concrete bumps on a capacity-2 store and the
unchanged header across a concrete materialization. -/
theorem version_counter_on_mutations_witness :
    store2x.header.imgst_version = (store2.header.imgst_version + 1) % U32 ∧
    (do_delete "x" store2x).2.header.imgst_version = (store2x.header.imgst_version + 1) % U32 ∧
    ((lazily_resize decodeUnit resizeEncUnit RES_SMALL storeX7 0).2).header = storeX7.header :=
  ⟨version_counter_on_mutations.1 hashId getResUnit [7] "x" store2 store2x (by decide),
   version_counter_on_mutations.2.1 "x" store2x (do_delete "x" store2x).2 (by decide),
   version_counter_on_mutations.2.2 decodeUnit resizeEncUnit RES_SMALL storeX7 0⟩

/-- C9 counterexample: a successful cache-miss materialization of the
SMALL variant (the slot's offset[SMALL] goes from 0 to non-zero, a
persisted in-place slot mutation) leaves the version counter untouched,
refuting the claim that variant materialization "bumps it as well". -/
theorem lazily_resize_no_version_bump_cex :
    (lazily_resize decodeUnit resizeEncUnit RES_SMALL storeX7 0).1 = Err.ok ∧
    (storeX7.metadata.getD 0 emptyMetadata).offset.get RES_SMALL = 0 ∧
    ((lazily_resize decodeUnit resizeEncUnit RES_SMALL storeX7 0).2.metadata.getD 0
      emptyMetadata).offset.get RES_SMALL ≠ 0 ∧
    ((lazily_resize decodeUnit resizeEncUnit RES_SMALL storeX7 0).2).header.imgst_version =
      storeX7.header.imgst_version := by
  decide

/-! ## Claim C10: the frame effect of delete -/

/-- C10: a successful `do_delete` of a valid id on a store whose disk
mirror is in sync changes exactly this: the found slot's `is_valid`
flag becomes EMPTY (all its other fields — id, SHA, sizes, offsets,
original dims — are kept), the header's `num_files` drops by one and
`imgst_version` rises by one, and the same slot record and header are
rewritten on disk; every other slot, every other header field, and all
heap bytes are unchanged, in memory and on disk (`deleteResult` spells
out the complete resulting state). -/
theorem delete_frame_effect (img_id : String) (f f' : ImgstFile)
    (hsync1 : f.diskHeader = f.header) (hsync2 : f.diskSlots = f.metadata)
    (h : do_delete img_id f = (.ok, f')) :
    ∃ idx, findMetadataIndex img_id f = some idx ∧ f' = deleteResult f idx := by
  obtain ⟨idx, hfind, hnum, hrange, hshape⟩ := do_delete_ok_shape img_id f f' h
  obtain ⟨hlt, hval, hid⟩ := findMetadataIndex_some img_id f idx hfind
  refine ⟨idx, hfind, ?_⟩
  rw [hshape]
  unfold deleteResultRaw deleteResult
  dsimp only
  rw [hsync2,
    getD_set_self _ _ _ _ (lt_length_of_getD_valid f.metadata idx hval)]

/-- C10 witness: deleting "x" from the concrete two-image store. -/
theorem delete_frame_effect_witness :
    store2xy.diskHeader = store2xy.header ∧
    store2xy.diskSlots = store2xy.metadata ∧
    (∃ idx, findMetadataIndex "x" store2xy = some idx ∧
      (do_delete "x" store2xy).2 = deleteResult store2xy idx) :=
  ⟨by decide, by decide,
   delete_frame_effect "x" store2xy (do_delete "x" store2xy).2
     (by decide) (by decide) (by decide)⟩

/-! ## Claim C5: num_files counts the valid slots -/

/-- C5: in every store state reachable by create, insert and delete,
`num_files` equals the exact number of slots with a set valid flag and
never exceeds `max_files`; moreover every successful insert on a
well-formed store increments `num_files` by exactly one and every
successful delete decrements it by exactly one (and only fires on a
non-zero count). -/
theorem num_files_invariant :
    (∀ f : ImgstFile, Reachable f →
      f.header.num_files = countValid f.metadata ∧
      f.header.num_files ≤ f.header.max_files) ∧
    (∀ (hash : List Nat → List Nat) (getRes : List Nat → Option (Nat × Nat))
        (buf : List Nat) (img_id : String) (f f' : ImgstFile), wf f →
      do_insert hash getRes buf img_id f = (.ok, f') →
      f'.header.num_files = f.header.num_files + 1) ∧
    (∀ (img_id : String) (f f' : ImgstFile), do_delete img_id f = (.ok, f') →
      f'.header.num_files = f.header.num_files - 1 ∧ f.header.num_files ≠ 0) := by
  refine ⟨?_, ?_, ?_⟩
  · intro f hr
    obtain ⟨hlen, hcount, hmax⟩ := reachable_wf f hr
    refine ⟨hcount, ?_⟩
    rw [hcount, ← hlen]
    exact countValid_le_length f.metadata
  · intro hash getRes buf img_id f f' hwf h
    obtain ⟨hlen, hcount, hmax⟩ := hwf
    have hnum := (do_insert_ok_header hash getRes buf img_id f f' h).2
    by_cases hful : f.header.max_files ≤ f.header.num_files
    · exfalso
      have hfull : do_insert hash getRes buf img_id f = (.fullImgstore, f) := by
        unfold do_insert
        rw [if_pos hful]
      rw [hfull] at h
      simp at h
    · rw [hnum]
      exact Nat.mod_eq_of_lt (by omega)
  · intro img_id f f' h
    obtain ⟨idx, hfind, hnum0, hrange, hshape⟩ := do_delete_ok_shape img_id f f' h
    rw [hshape]
    exact ⟨rfl, hnum0⟩

/-- C5 witness: the concrete create/insert/insert/delete chain on a
capacity-2 store. -/
theorem num_files_invariant_witness :
    Reachable store2xy ∧
    (store2xy.header.num_files = countValid store2xy.metadata ∧
     store2xy.header.num_files ≤ store2xy.header.max_files) ∧
    store2xy.header.num_files = store2x.header.num_files + 1 ∧
    ((do_delete "x" store2xy).2.header.num_files = store2xy.header.num_files - 1 ∧
     store2xy.header.num_files ≠ 0) := by
  have hreach : Reachable store2xy :=
    Reachable.insert hashId getResUnit [5] "y" store2x
      (Reachable.insert hashId getResUnit [7] "x" store2
        (Reachable.create 2 [64, 64, 256, 256] (by decide)))
  refine ⟨hreach, num_files_invariant.1 store2xy hreach, ?_, ?_⟩
  · exact num_files_invariant.2.1 hashId getResUnit [5] "y" store2x store2xy
      (by decide) (by decide)
  · exact num_files_invariant.2.2 "x" store2xy (do_delete "x" store2xy).2 (by decide)

/-! ## Claim C7: variant cache idempotence -/

/-- C7: if a `do_read` of the SMALL (or THUMBNAIL) variant succeeds,
returning state `f1` and bytes `b`, then an immediately repeated
`do_read` on `f1` returns exactly the same answer with the state `f1`
itself: the slot's cached offset is non-zero after the first call, so
the second call re-reads the cached range with no recomputation, no new
heap append, and no change to `offset[res]` (the whole store state is
unchanged). -/
theorem variant_cache_idempotent (decode : List Nat → Option (Nat × Nat))
    (resizeEnc : List Nat → ℚ → Option (List Nat)) (img_id : String) (res : Nat)
    (f f1 : ImgstFile) (b : List Nat) (sz : Nat)
    (hres : res = RES_SMALL ∨ res = RES_THUMB)
    (h : do_read decode resizeEnc img_id res f = (.ok, f1, some b, sz)) :
    do_read decode resizeEnc img_id res f1 = (.ok, f1, some b, sz) := by
  have hresv : res = RES_SMALL ∨ res = RES_THUMB ∨ res = RES_ORIG := by
    rcases hres with h1 | h1
    · exact Or.inl h1
    · exact Or.inr (Or.inl h1)
  unfold do_read at h
  rw [if_neg (not_not_intro hresv)] at h
  split at h
  · have := congrArg (fun x => x.1) h
    simp at this
  · rename_i idx hfind
    dsimp only at h
    split at h
    case _ fm heq1 =>
      split at h
      case _ buf hread =>
        have hfm : fm = f1 := congrArg (fun x => x.2.1) h
        have hbuf : buf = b := by
          have := congrArg (fun x => x.2.2.1) h
          simpa using this
        have hsz : ((fm.metadata.getD idx emptyMetadata).size.get res) = sz := by
          have := congrArg (fun x => x.2.2.2) h
          simpa using this
        subst hfm
        subst hbuf
        have hfinish : findMetadataIndex img_id fm = some idx →
            (fm.metadata.getD idx emptyMetadata).offset.get res ≠ 0 →
            do_read decode resizeEnc img_id res fm = (.ok, fm, some buf, sz) := by
          intro hfind2 hoff2
          unfold do_read
          rw [if_neg (not_not_intro hresv), hfind2]
          dsimp only
          rw [if_neg hoff2]
          dsimp only
          rw [hread]
          dsimp only
          rw [hsz]
        split at heq1
        · rename_i hmiss
          obtain ⟨rb, hrb, hval, hidx, hmeta, hheader, hheap⟩ :=
            lazily_resize_miss_ok decode resizeEnc res f idx fm hres hmiss heq1
          have hlenidx : idx < f.metadata.length :=
            lt_length_of_getD_valid f.metadata idx hval
          apply hfinish
          · rw [findMetadataIndex_congr img_id fm f (by rw [hheader]) ?_]
            · exact hfind
            · intro j
              rw [hmeta]
              constructor
              · refine getD_set_pointwise_field (fun m => m.img_id) f.metadata idx _ ?_ j
                rfl
              · refine getD_set_pointwise_field (fun m => m.is_valid) f.metadata idx _ ?_ j
                rfl
          · rw [hmeta, getD_set_self _ _ _ _ hlenidx]
            have hpos := heapStart_pos f.header.max_files
            rcases hres with h1 | h1 <;> subst h1 <;>
            · simp only [ResArr.set_small_eq, ResArr.get_small_eq,
                ResArr.set_thumb_eq, ResArr.get_thumb_eq]
              unfold fileEnd
              omega
        · rename_i hhit
          have hfmf : f = fm := by
            have := congrArg (fun x => x.2) heq1
            simpa using this
          subst hfmf
          exact hfinish hfind (by simpa using hhit)
      case _ hreadnone =>
        have := congrArg (fun x => x.2.2.1) h
        simp at this
    case _ e fm hne =>
      have := congrArg (fun x => x.2.2.1) h
      simp at this

/-- C7 witness: two consecutive SMALL reads on the concrete one-image
store; the first materializes the variant, the second replays it. -/
theorem variant_cache_idempotent_witness :
    do_read decodeUnit resizeEncUnit "x" RES_SMALL storeX7 =
      (.ok, (do_read decodeUnit resizeEncUnit "x" RES_SMALL storeX7).2.1, some [9], 1) ∧
    do_read decodeUnit resizeEncUnit "x" RES_SMALL
        (do_read decodeUnit resizeEncUnit "x" RES_SMALL storeX7).2.1 =
      (.ok, (do_read decodeUnit resizeEncUnit "x" RES_SMALL storeX7).2.1, some [9], 1) :=
  ⟨by decide,
   variant_cache_idempotent decodeUnit resizeEncUnit "x" RES_SMALL storeX7
     (do_read decodeUnit resizeEncUnit "x" RES_SMALL storeX7).2.1 [9] 1
     (Or.inl rfl) (by decide)⟩


/-! ## Claim C3: duplicate-id insert -/

/-- C3 amended: on a non-full well-formed store holding a valid slot
with id X, `do_insert` of any content under X fails with
ERR_DUPLICATE_ID; the header (including num_files), the on-disk header
and slot table, and the heap are unchanged, every slot other than the
free slot that was being prepared is unchanged in memory, the number of
valid slots is unchanged, and the free slot itself keeps
`is_valid = EMPTY` — so no half-written entry ever reaches valid state —
although its id/SHA scratch fields have been overwritten. -/
theorem insert_duplicate_id (hash : List Nat → List Nat)
    (getRes : List Nat → Option (Nat × Nat)) (buf : List Nat) (X : String)
    (f : ImgstFile) (hwf : wf f)
    (hnotfull : f.header.num_files < f.header.max_files)
    (hdup : ∃ m ∈ f.metadata, m.is_valid ≠ 0 ∧ m.img_id = X) :
    (do_insert hash getRes buf X f).1 = Err.duplicateId ∧
    (do_insert hash getRes buf X f).2.header = f.header ∧
    (do_insert hash getRes buf X f).2.diskHeader = f.diskHeader ∧
    (do_insert hash getRes buf X f).2.diskSlots = f.diskSlots ∧
    (do_insert hash getRes buf X f).2.heap = f.heap ∧
    ((do_insert hash getRes buf X f).2.metadata.getD (freeSlotIndex f) emptyMetadata).is_valid = 0 ∧
    (∀ j, j ≠ freeSlotIndex f →
      (do_insert hash getRes buf X f).2.metadata.getD j emptyMetadata
        = f.metadata.getD j emptyMetadata) ∧
    countValid (do_insert hash getRes buf X f).2.metadata = countValid f.metadata := by
  obtain ⟨hlen, hcount, hmax⟩ := hwf
  obtain ⟨i1lt, i1free⟩ := freeSlotIndex_spec f ⟨hlen, hcount, hmax⟩ hnotfull
  have hi1len : freeSlotIndex f < f.metadata.length := by omega
  obtain ⟨m, hmem, hmval, hmid⟩ := hdup
  obtain ⟨t, htlen, hte⟩ := exists_getD_of_mem f.metadata m hmem
  have htne : t ≠ freeSlotIndex f := by
    intro hte2
    rw [hte2] at hte
    rw [hte] at i1free
    exact hmval i1free
  obtain ⟨cur', hD, hcv⟩ := do_name_and_content_dedup_dup { f with metadata := f.metadata.set (freeSlotIndex f) { f.metadata.getD (freeSlotIndex f) emptyMetadata with sha := hash buf, img_id := X } } (freeSlotIndex f) t (by dsimp only; omega) (by dsimp only; omega) htne
    (by
      dsimp only
      rw [getD_set_ne _ _ _ _ _ (by omega), hte]
      exact hmval)
    (by
      dsimp only
      rw [getD_set_ne _ _ _ _ _ (by omega), hte]
      rw [getD_set_self _ _ _ _ hi1len]
      exact hmid)
  have hcv2 : cur'.is_valid = 0 := by
    rw [hcv]
    dsimp only
    rw [getD_set_self _ _ _ _ hi1len]
    exact i1free
  have hins : do_insert hash getRes buf X f = (Err.duplicateId, { f with metadata := (f.metadata.set (freeSlotIndex f) { f.metadata.getD (freeSlotIndex f) emptyMetadata with sha := hash buf, img_id := X }).set (freeSlotIndex f) cur' }) := by
    unfold do_insert
    rw [if_neg (by omega)]
    dsimp only
    rw [hD]
  rw [hins]
  dsimp only
  rw [List.set_set]
  refine ⟨rfl, rfl, rfl, rfl, rfl, ?_, ?_, ?_⟩
  · rw [getD_set_self _ _ _ _ hi1len]
    exact hcv2
  · intro j hj
    rw [getD_set_ne _ _ _ _ _ (fun he => hj he.symm)]
  · apply countValid_set_same
    rw [hcv2, i1free]

/-- C3 witness: inserting id "x" again into the concrete store. -/
theorem insert_duplicate_id_witness :
    wf store2x ∧
    store2x.header.num_files < store2x.header.max_files ∧
    (∃ m ∈ store2x.metadata, m.is_valid ≠ 0 ∧ m.img_id = "x") ∧
    (do_insert hashId getResUnit [8] "x" store2x).1 = Err.duplicateId ∧
    (do_insert hashId getResUnit [8] "x" store2x).2.header = store2x.header ∧
    countValid (do_insert hashId getResUnit [8] "x" store2x).2.metadata
      = countValid store2x.metadata :=
  ⟨by decide, by decide, by decide,
   (insert_duplicate_id hashId getResUnit [8] "x" store2x
     (by decide) (by decide) (by decide)).1,
   (insert_duplicate_id hashId getResUnit [8] "x" store2x
     (by decide) (by decide) (by decide)).2.1,
   (insert_duplicate_id hashId getResUnit [8] "x" store2x
     (by decide) (by decide) (by decide)).2.2.2.2.2.2.2⟩

/-- C3 counterexample: the claim as stated says the failed attempt
leaves the in-memory slot table — including the free slot being
prepared — unchanged; on the concrete store the attempt returns
ERR_DUPLICATE_ID but has overwritten the free slot's id and SHA fields
in memory, so the table differs from before the call. -/
theorem insert_duplicate_scratch_mutated_cex :
    (do_insert hashId getResUnit [8] "x" store2x).1 = Err.duplicateId ∧
    (do_insert hashId getResUnit [8] "x" store2x).2.metadata ≠ store2x.metadata ∧
    ((do_insert hashId getResUnit [8] "x" store2x).2.metadata.getD 1 emptyMetadata).img_id = "x" ∧
    (store2x.metadata.getD 1 emptyMetadata).img_id = "" ∧
    ((do_insert hashId getResUnit [8] "x" store2x).2.metadata.getD 1 emptyMetadata).sha = [8] ∧
    (store2x.metadata.getD 1 emptyMetadata).sha = [] := by
  decide


/-! ## Claim C1: insert / read round trip -/

/-- C1 (amended): on a well-formed open store whose valid slots have
consistent ranges and digests, with an injective digest capability, a
fresh id and content shorter than 2^32 bytes, a successful `do_insert`
followed by `do_read` at RES_ORIG returns exactly the inserted bytes
and their length. The length bound is necessary (see the
counterexample): the C stores `(uint32_t)image_size`. -/
theorem round_trip_insert_read (hash : List Nat → List Nat)
    (getRes : List Nat → Option (Nat × Nat)) (decode : List Nat → Option (Nat × Nat))
    (resizeEnc : List Nat → ℚ → Option (List Nat)) (C : List Nat) (img_id : String)
    (f f' : ImgstFile)
    (hwf : wf f) (hranges : slotRangesOk f) (hhash : hashConsistent hash f)
    (hinj : Function.Injective hash)
    (hfresh : ∀ m ∈ f.metadata, m.is_valid ≠ 0 → m.img_id ≠ img_id)
    (hsmall : C.length < U32)
    (hins : do_insert hash getRes C img_id f = (.ok, f')) :
    do_read decode resizeEnc img_id RES_ORIG f' = (.ok, f', some C, C.length) := by
  have hlen : f.metadata.length = f.header.max_files := hwf.1
  by_cases hfull : f.header.max_files ≤ f.header.num_files
  · exfalso
    unfold do_insert at hins
    rw [if_pos hfull] at hins
    exact Err.noConfusion (congrArg Prod.fst hins)
  have hnum : f.header.num_files < f.header.max_files := by omega
  obtain ⟨hi1, hfree⟩ := freeSlotIndex_spec f hwf hnum
  have hmod : C.length % U32 = C.length := Nat.mod_eq_of_lt hsmall
  by_cases hclone : ∃ m ∈ f.metadata, m.is_valid ≠ 0 ∧ m.sha = hash C
  · -- alias path: the content digest already occurs in a valid slot
    cases hgrs : getRes C with
    | none =>
      exfalso
      have := do_insert_alias_nores hash getRes C img_id f hwf hranges hnum hfresh hclone hgrs
      rw [hins] at this
      exact Err.noConfusion this
    | some p =>
      obtain ⟨w, hres⟩ := p
      obtain ⟨m, hm, hmv, hmsha, heq⟩ :=
        do_insert_alias_ok hash getRes C img_id w hres f hwf hranges hnum hfresh hclone hgrs
      rw [heq] at hins
      have hf' : f' = insertResult f (freeSlotIndex f) { img_id := img_id, sha := hash C, res_orig_w := w, res_orig_h := hres, size := m.size.set RES_ORIG (C.length % U32), offset := m.offset, is_valid := 1 } f.heap :=
        (congrArg Prod.snd hins).symm
      obtain ⟨hr1, hr2, hr3⟩ := hranges m hm hmv
      have hbm := hhash m hm hmv
      have hCbm : C = (f.heap.drop (m.offset.get RES_ORIG - heapStart f.header.max_files)).take (m.size.get RES_ORIG) :=
        hinj (hmsha.symm.trans hbm)
      have hClen : C.length = m.size.get RES_ORIG := by
        rw [hCbm]
        rw [List.length_take, List.length_drop]
        omega
      subst hf'
      have hrd := read_insertResult decode resizeEnc img_id f
        { img_id := img_id, sha := hash C, res_orig_w := w, res_orig_h := hres, size := m.size.set RES_ORIG (C.length % U32), offset := m.offset, is_valid := 1 }
        f.heap C hlen hi1 hfresh rfl (by simp) (by
          simp only
          have := heapStart_pos f.header.max_files
          omega)
        (by
          simp only [ResArr.get_orig_eq, ResArr.set_orig_eq]
          show fileReadAt _ (m.offset.get RES_ORIG) (C.length % U32) = some C
          rw [hmod]
          unfold fileReadAt
          rw [if_pos (by
            show C.length ≠ 0 ∧ heapStart f.header.max_files ≤ m.offset.get RES_ORIG ∧
              m.offset.get RES_ORIG - heapStart f.header.max_files + C.length ≤ f.heap.length
            omega)]
          show some ((f.heap.drop (m.offset.get RES_ORIG - heapStart f.header.max_files)).take C.length) = some C
          rw [hClen, ← hCbm])
      rw [hrd]
      simp [hmod]
  · -- fresh-content path: the bytes are appended at the old end of file
    push_neg at hclone
    have hfreshsha : ∀ m ∈ f.metadata, m.is_valid ≠ 0 → m.sha ≠ hash C := hclone
    by_cases hbuf : C = []
    · exfalso
      subst hbuf
      have := do_insert_fresh_emptybuf hash getRes img_id f hwf hnum hfresh hfreshsha
      rw [hins] at this
      exact Err.noConfusion this
    cases hgrs : getRes C with
    | none =>
      exfalso
      have := do_insert_fresh_nores hash getRes C img_id f hwf hnum hfresh hfreshsha hbuf hgrs
      rw [hins] at this
      exact Err.noConfusion this
    | some p =>
      obtain ⟨w, hres⟩ := p
      have heq := do_insert_fresh_ok hash getRes C img_id w hres f hwf hnum hfresh hfreshsha hbuf hgrs
      rw [heq] at hins
      have hf' : f' = insertResult f (freeSlotIndex f) { img_id := img_id, sha := hash C, res_orig_w := w, res_orig_h := hres, size := (f.metadata.getD (freeSlotIndex f) emptyMetadata).size.set RES_ORIG (C.length % U32), offset := (f.metadata.getD (freeSlotIndex f) emptyMetadata).offset.set RES_ORIG (fileEnd f), is_valid := 1 } (f.heap ++ C) :=
        (congrArg Prod.snd hins).symm
      subst hf'
      have hfe : fileEnd f ≠ 0 := by
        unfold fileEnd
        have := heapStart_pos f.header.max_files
        omega
      have hrd := read_insertResult decode resizeEnc img_id f
        { img_id := img_id, sha := hash C, res_orig_w := w, res_orig_h := hres, size := (f.metadata.getD (freeSlotIndex f) emptyMetadata).size.set RES_ORIG (C.length % U32), offset := (f.metadata.getD (freeSlotIndex f) emptyMetadata).offset.set RES_ORIG (fileEnd f), is_valid := 1 }
        (f.heap ++ C) C hlen hi1 hfresh rfl (by simp) (by simp; exact hfe)
        (by
          simp only [ResArr.get_orig_eq, ResArr.set_orig_eq]
          show fileReadAt _ (fileEnd f) (C.length % U32) = some C
          rw [hmod]
          unfold fileReadAt
          rw [if_pos (by
            refine ⟨fun hc => hbuf (List.length_eq_zero.mp hc), ?_, ?_⟩
            · show heapStart f.header.max_files ≤ fileEnd f
              unfold fileEnd
              omega
            · show fileEnd f - heapStart f.header.max_files + C.length ≤ (f.heap ++ C).length
              unfold fileEnd
              rw [List.length_append]
              omega)]
          show some (((f.heap ++ C).drop (fileEnd f - heapStart f.header.max_files)).take C.length) = some C
          rw [show fileEnd f - heapStart f.header.max_files = f.heap.length from by unfold fileEnd; omega]
          rw [List.drop_left, List.take_length])
      rw [hrd]
      simp [hmod]

theorem round_trip_insert_read_witness :
    do_read decodeUnit resizeEncUnit "y" RES_ORIG store2xy = (.ok, store2xy, some [5], 1) :=
  round_trip_insert_read hashId getResUnit decodeUnit resizeEncUnit [5] "y" store2x store2xy
    (by decide) (by decide) (by decide) (fun a b hab => hab) (by decide) (by decide) (by decide)

/-- C1 counterexample to the unamended claim: content of exactly 2^32
bytes is inserted successfully, but its stored `size[RES_ORIG]` is
`2^32 % 2^32 = 0` (the C casts `image_size` to `uint32_t`), so the
subsequent read of RES_ORIG fails with ERR_IO (`fread` of 0 bytes)
instead of returning the content. -/
theorem round_trip_truncation_cex :
    hugeContent.length = U32 ∧
    (do_insert hashConst getResUnit hugeContent "x" store1).1 = Err.ok ∧
    do_read decodeUnit resizeEncUnit "x" RES_ORIG
      (do_insert hashConst getResUnit hugeContent "x" store1).2
      = (Err.ioErr, (do_insert hashConst getResUnit hugeContent "x" store1).2, none, 0) := by
  have hhc : hugeContent.length = U32 := by simp [hugeContent]
  have hbuf : hugeContent ≠ [] := by
    intro h
    rw [h] at hhc
    simp [U32] at hhc
  have hins := do_insert_fresh_ok hashConst getResUnit hugeContent "x" 1 1 store1
    (by decide) (by decide) (by decide) (by decide) hbuf rfl
  rw [show hugeContent.length % U32 = 0 from by rw [hhc]; exact Nat.mod_self U32] at hins
  rw [show store1.heap ++ hugeContent = hugeContent from List.nil_append hugeContent] at hins
  refine ⟨hhc, by rw [hins], ?_⟩
  rw [hins]
  show do_read decodeUnit resizeEncUnit "x" RES_ORIG _ = _
  unfold do_read
  rw [if_neg (not_not_intro (Or.inr (Or.inr rfl)))]
  rw [show findMetadataIndex "x" (insertResult store1 (freeSlotIndex store1) { img_id := "x", sha := hashConst hugeContent, res_orig_w := 1, res_orig_h := 1, size := (store1.metadata.getD (freeSlotIndex store1) emptyMetadata).size.set RES_ORIG 0, offset := (store1.metadata.getD (freeSlotIndex store1) emptyMetadata).offset.set RES_ORIG (fileEnd store1), is_valid := 1 } hugeContent) = some 0 from by decide]
  dsimp only
  rw [if_neg (by decide)]
  dsimp only
  rw [show fileReadAt (insertResult store1 (freeSlotIndex store1) { img_id := "x", sha := hashConst hugeContent, res_orig_w := 1, res_orig_h := 1, size := (store1.metadata.getD (freeSlotIndex store1) emptyMetadata).size.set RES_ORIG 0, offset := (store1.metadata.getD (freeSlotIndex store1) emptyMetadata).offset.set RES_ORIG (fileEnd store1), is_valid := 1 } hugeContent) ((insertResult store1 (freeSlotIndex store1) { img_id := "x", sha := hashConst hugeContent, res_orig_w := 1, res_orig_h := 1, size := (store1.metadata.getD (freeSlotIndex store1) emptyMetadata).size.set RES_ORIG 0, offset := (store1.metadata.getD (freeSlotIndex store1) emptyMetadata).offset.set RES_ORIG (fileEnd store1), is_valid := 1 } hugeContent).metadata.getD 0 emptyMetadata |>.offset.get RES_ORIG) ((insertResult store1 (freeSlotIndex store1) { img_id := "x", sha := hashConst hugeContent, res_orig_w := 1, res_orig_h := 1, size := (store1.metadata.getD (freeSlotIndex store1) emptyMetadata).size.set RES_ORIG 0, offset := (store1.metadata.getD (freeSlotIndex store1) emptyMetadata).offset.set RES_ORIG (fileEnd store1), is_valid := 1 } hugeContent).metadata.getD 0 emptyMetadata |>.size.get RES_ORIG) = none from by
    unfold fileReadAt
    rw [if_neg (by
      intro hcond
      exact hcond.1 (by decide))]]
  rw [show ((insertResult store1 (freeSlotIndex store1) { img_id := "x", sha := hashConst hugeContent, res_orig_w := 1, res_orig_h := 1, size := (store1.metadata.getD (freeSlotIndex store1) emptyMetadata).size.set RES_ORIG 0, offset := (store1.metadata.getD (freeSlotIndex store1) emptyMetadata).offset.set RES_ORIG (fileEnd store1), is_valid := 1 } hugeContent).metadata.getD 0 emptyMetadata).size.get RES_ORIG = 0 from by decide]

/-! ## Claim C2: content dedup across two ids and a delete -/

/-- C2 (amended): inserting bytes `C` (shorter than 2^32 bytes — see
the counterexample for content of exactly 2^32 bytes) under a fresh id
X, then the same bytes under a fresh id Y on a store with two free
slots: Y's insert takes the dedup alias path, so the heap is unchanged
by it, Y's slot holds X's offset table (identical `offset[RES_ORIG]`)
and size table, reads of both X and Y at RES_ORIG return `C`, and
after deleting X the read of Y still returns `C`. -/
theorem content_dedup_lifecycle (hash : List Nat → List Nat)
    (getRes : List Nat → Option (Nat × Nat)) (decode : List Nat → Option (Nat × Nat))
    (resizeEnc : List Nat → ℚ → Option (List Nat)) (C : List Nat) (X Y : String)
    (f0 s1 s2 s3 : ImgstFile)
    (hwf : wf f0) (hranges : slotRangesOk f0)
    (hcap : f0.header.num_files + 2 ≤ f0.header.max_files)
    (hXY : X ≠ Y)
    (hfreshX : ∀ m ∈ f0.metadata, m.is_valid ≠ 0 → m.img_id ≠ X)
    (hfreshY : ∀ m ∈ f0.metadata, m.is_valid ≠ 0 → m.img_id ≠ Y)
    (hfreshsha : ∀ m ∈ f0.metadata, m.is_valid ≠ 0 → m.sha ≠ hash C)
    (hbuf : C ≠ []) (hsmall : C.length < U32)
    (hins1 : do_insert hash getRes C X f0 = (.ok, s1))
    (hins2 : do_insert hash getRes C Y s1 = (.ok, s2))
    (hdel : do_delete X s2 = (.ok, s3)) :
    s2.heap = s1.heap ∧
    (∃ iX iY, iX ≠ iY ∧
      findMetadataIndex X s2 = some iX ∧ findMetadataIndex Y s2 = some iY ∧
      (s2.metadata.getD iY emptyMetadata).offset = (s2.metadata.getD iX emptyMetadata).offset ∧
      (s2.metadata.getD iY emptyMetadata).size = (s2.metadata.getD iX emptyMetadata).size) ∧
    do_read decode resizeEnc X RES_ORIG s2 = (.ok, s2, some C, C.length) ∧
    do_read decode resizeEnc Y RES_ORIG s2 = (.ok, s2, some C, C.length) ∧
    do_read decode resizeEnc Y RES_ORIG s3 = (.ok, s3, some C, C.length) := by
  obtain ⟨hlen0, hcount0, hmax0⟩ := hwf
  have hnum1 : f0.header.num_files < f0.header.max_files := by omega
  obtain ⟨hi1, hfree1⟩ := freeSlotIndex_spec f0 ⟨hlen0, hcount0, hmax0⟩ hnum1
  have hmod : C.length % U32 = C.length := Nat.mod_eq_of_lt hsmall
  have hClen0 : C.length ≠ 0 := fun hc => hbuf (List.length_eq_zero.mp hc)
  have hpre1 : ∀ j, j < freeSlotIndex f0 → (f0.metadata.getD j emptyMetadata).is_valid ≠ 0 := by
    intro j hj
    have hb := scanFrom_before (fun j => (f0.metadata.getD j emptyMetadata).is_valid == 0)
      0 f0.header.max_files j (Nat.zero_le j) hj
    simpa using hb
  cases hgrs : getRes C with
  | none =>
    exfalso
    have hcontra := do_insert_fresh_nores hash getRes C X f0 ⟨hlen0, hcount0, hmax0⟩ hnum1 hfreshX hfreshsha hbuf hgrs
    rw [hins1] at hcontra
    exact Err.noConfusion hcontra
  | some p =>
  obtain ⟨w, h⟩ := p
  have hwf1 : wf s1 := by
    have hthis := do_insert_wf hash getRes C X f0 ⟨hlen0, hcount0, hmax0⟩
    rw [hins1] at hthis
    exact hthis
  have heq1 := do_insert_fresh_ok hash getRes C X w h f0 ⟨hlen0, hcount0, hmax0⟩ hnum1 hfreshX hfreshsha hbuf hgrs
  have hs1 : s1 = insertResult f0 (freeSlotIndex f0) { img_id := X, sha := hash C, res_orig_w := w, res_orig_h := h, size := (f0.metadata.getD (freeSlotIndex f0) emptyMetadata).size.set RES_ORIG (C.length % U32), offset := (f0.metadata.getD (freeSlotIndex f0) emptyMetadata).offset.set RES_ORIG (fileEnd f0), is_valid := 1 } (f0.heap ++ C) := by
    rw [heq1] at hins1
    exact (congrArg Prod.snd hins1).symm
  have hmax1 : s1.header.max_files = f0.header.max_files := by rw [hs1]; rfl
  have hnumeq1 : s1.header.num_files = f0.header.num_files + 1 := by
    rw [hs1]
    show (f0.header.num_files + 1) % U32 = f0.header.num_files + 1
    exact Nat.mod_eq_of_lt (by omega)
  have hheap1 : s1.heap = f0.heap ++ C := by rw [hs1]; rfl
  have hmeta1 : s1.metadata = f0.metadata.set (freeSlotIndex f0) { img_id := X, sha := hash C, res_orig_w := w, res_orig_h := h, size := (f0.metadata.getD (freeSlotIndex f0) emptyMetadata).size.set RES_ORIG (C.length % U32), offset := (f0.metadata.getD (freeSlotIndex f0) emptyMetadata).offset.set RES_ORIG (fileEnd f0), is_valid := 1 } := by rw [hs1]; rfl
  have hlen1 : s1.metadata.length = f0.metadata.length := by rw [hmeta1]; simp
  have hgX1 : s1.metadata.getD (freeSlotIndex f0) emptyMetadata = { img_id := X, sha := hash C, res_orig_w := w, res_orig_h := h, size := (f0.metadata.getD (freeSlotIndex f0) emptyMetadata).size.set RES_ORIG (C.length % U32), offset := (f0.metadata.getD (freeSlotIndex f0) emptyMetadata).offset.set RES_ORIG (fileEnd f0), is_valid := 1 } := by
    rw [hmeta1]
    exact getD_set_self _ _ _ _ (by omega)
  have hgother1 : ∀ j, j ≠ freeSlotIndex f0 → s1.metadata.getD j emptyMetadata = f0.metadata.getD j emptyMetadata := by
    intro j hj
    rw [hmeta1]
    exact getD_set_ne _ _ _ _ _ (fun he => hj he.symm)
  have hnum2 : s1.header.num_files < s1.header.max_files := by rw [hnumeq1, hmax1]; omega
  have hranges1 : slotRangesOk s1 := by
    intro m hm hmv
    rw [hmax1, hheap1, List.length_append]
    rw [hmeta1] at hm
    rcases List.mem_or_eq_of_mem_set hm with hmf | hmeq
    · obtain ⟨r1, r2, r3⟩ := hranges m hmf hmv
      exact ⟨r1, by omega, r3⟩
    · subst hmeq
      refine ⟨?_, ?_, ?_⟩
      · simp only [ResArr.set_orig_eq, ResArr.get_orig_eq]
        unfold fileEnd
        omega
      · simp only [ResArr.set_orig_eq, ResArr.get_orig_eq]
        unfold fileEnd
        omega
      · simp only [ResArr.set_orig_eq, ResArr.get_orig_eq]
        omega
  have hfreshidY1 : ∀ m ∈ s1.metadata, m.is_valid ≠ 0 → m.img_id ≠ Y := by
    intro m hm hmv
    rw [hmeta1] at hm
    rcases List.mem_or_eq_of_mem_set hm with hmf | hmeq
    · exact hfreshY m hmf hmv
    · subst hmeq
      exact hXY
  have hvalid1 : (s1.metadata.getD (freeSlotIndex f0) emptyMetadata).is_valid ≠ 0 := by
    rw [hgX1]
    exact one_ne_zero
  have hsha1 : (s1.metadata.getD (freeSlotIndex f0) emptyMetadata).sha = hash C := by
    rw [hgX1]
  have huniq1 : ∀ m ∈ s1.metadata, m.is_valid ≠ 0 → m.sha = hash C → m = s1.metadata.getD (freeSlotIndex f0) emptyMetadata := by
    intro m hm hmv hmsha
    rw [hmeta1] at hm
    rw [hgX1]
    rcases List.mem_or_eq_of_mem_set hm with hmf | hmeq
    · exact absurd hmsha (hfreshsha m hmf hmv)
    · exact hmeq
  have heq2 := do_insert_alias_unique hash getRes C Y w h s1 (freeSlotIndex f0) hwf1 hranges1 hnum2 hfreshidY1 hvalid1 hsha1 huniq1 hgrs
  have hs2 : s2 = insertResult s1 (freeSlotIndex s1) { img_id := Y, sha := hash C, res_orig_w := w, res_orig_h := h, size := (s1.metadata.getD (freeSlotIndex f0) emptyMetadata).size.set RES_ORIG (C.length % U32), offset := (s1.metadata.getD (freeSlotIndex f0) emptyMetadata).offset, is_valid := 1 } s1.heap := by
    rw [heq2] at hins2
    exact (congrArg Prod.snd hins2).symm
  obtain ⟨hi2, hfree2⟩ := freeSlotIndex_spec s1 hwf1 hnum2
  have hi2f : freeSlotIndex s1 < f0.header.max_files := by rw [← hmax1]; exact hi2
  have hne21 : freeSlotIndex s1 ≠ freeSlotIndex f0 := by
    intro he
    rw [he, hgX1] at hfree2
    exact one_ne_zero hfree2
  have hne12 : freeSlotIndex f0 ≠ freeSlotIndex s1 := fun he => hne21 he.symm
  have hgt : freeSlotIndex f0 < freeSlotIndex s1 := by
    rcases Nat.lt_or_ge (freeSlotIndex s1) (freeSlotIndex f0) with hlt | hge
    · exfalso
      have hv := hpre1 (freeSlotIndex s1) hlt
      rw [← hgother1 (freeSlotIndex s1) (by omega)] at hv
      exact hv hfree2
    · omega
  have hmax2 : s2.header.max_files = f0.header.max_files := by rw [hs2]; exact hmax1
  have hheap2 : s2.heap = f0.heap ++ C := by rw [hs2]; exact hheap1
  have hheap2x : s2.heap = s1.heap := by rw [hs2]; rfl
  have hmeta2 : s2.metadata = s1.metadata.set (freeSlotIndex s1) { img_id := Y, sha := hash C, res_orig_w := w, res_orig_h := h, size := (s1.metadata.getD (freeSlotIndex f0) emptyMetadata).size.set RES_ORIG (C.length % U32), offset := (s1.metadata.getD (freeSlotIndex f0) emptyMetadata).offset, is_valid := 1 } := by rw [hs2]; rfl
  have hlen2 : s2.metadata.length = f0.metadata.length := by rw [hmeta2]; simp [hlen1]
  have hi2len : freeSlotIndex s1 < s1.metadata.length := by rw [hlen1]; omega
  have hi1len2 : freeSlotIndex f0 < s2.metadata.length := by rw [hlen2]; omega
  have hgY2 : s2.metadata.getD (freeSlotIndex s1) emptyMetadata = { img_id := Y, sha := hash C, res_orig_w := w, res_orig_h := h, size := (s1.metadata.getD (freeSlotIndex f0) emptyMetadata).size.set RES_ORIG (C.length % U32), offset := (s1.metadata.getD (freeSlotIndex f0) emptyMetadata).offset, is_valid := 1 } := by
    rw [hmeta2]
    exact getD_set_self _ _ _ _ hi2len
  have hgX2 : s2.metadata.getD (freeSlotIndex f0) emptyMetadata = { img_id := X, sha := hash C, res_orig_w := w, res_orig_h := h, size := (f0.metadata.getD (freeSlotIndex f0) emptyMetadata).size.set RES_ORIG (C.length % U32), offset := (f0.metadata.getD (freeSlotIndex f0) emptyMetadata).offset.set RES_ORIG (fileEnd f0), is_valid := 1 } := by
    rw [hmeta2, getD_set_ne _ _ _ _ _ hne21]
    exact hgX1
  have hgother2 : ∀ j, j ≠ freeSlotIndex f0 → j ≠ freeSlotIndex s1 → s2.metadata.getD j emptyMetadata = f0.metadata.getD j emptyMetadata := by
    intro j hj1 hj2
    rw [hmeta2, getD_set_ne _ _ _ _ _ (fun he => hj2 he.symm)]
    exact hgother1 j hj1
  have hfindX2 : findMetadataIndex X s2 = some (freeSlotIndex f0) :=
    findMetadataIndex_eq s2 X (freeSlotIndex f0) (by rw [hmax2]; omega)
      (by rw [hgX2]; exact one_ne_zero) (by rw [hgX2])
      (by
        intro j hj hval
        rw [hgother2 j (by omega) (by omega)] at hval ⊢
        exact hfreshX _ (getD_mem f0.metadata j emptyMetadata (lt_length_of_getD_valid f0.metadata j hval)) hval)
  have hfindY2 : findMetadataIndex Y s2 = some (freeSlotIndex s1) :=
    findMetadataIndex_eq s2 Y (freeSlotIndex s1) (by rw [hmax2]; omega)
      (by rw [hgY2]; exact one_ne_zero) (by rw [hgY2])
      (by
        intro j hj hval
        by_cases hji : j = freeSlotIndex f0
        · rw [hji, hgX2] at hval ⊢
          exact hXY
        · rw [hgother2 j hji (by omega)] at hval ⊢
          exact hfreshY _ (getD_mem f0.metadata j emptyMetadata (lt_length_of_getD_valid f0.metadata j hval)) hval)
  have hoffXval : (s2.metadata.getD (freeSlotIndex f0) emptyMetadata).offset.get RES_ORIG = fileEnd f0 := by
    rw [hgX2]
    simp only [ResArr.set_orig_eq, ResArr.get_orig_eq]
  have hoffX : ¬ (s2.metadata.getD (freeSlotIndex f0) emptyMetadata).offset.get RES_ORIG = 0 := by
    rw [hoffXval]
    unfold fileEnd
    have := heapStart_pos f0.header.max_files
    omega
  have hszX : (s2.metadata.getD (freeSlotIndex f0) emptyMetadata).size.get RES_ORIG = C.length := by
    rw [hgX2]
    simp only [ResArr.set_orig_eq, ResArr.get_orig_eq]
    exact hmod
  have hfr : ∀ g : ImgstFile, g.header.max_files = f0.header.max_files → g.heap = f0.heap ++ C → fileReadAt g (fileEnd f0) C.length = some C := by
    intro g hg1 hg2
    unfold fileReadAt
    rw [hg1, hg2]
    rw [if_pos ⟨hClen0, by unfold fileEnd; omega, by unfold fileEnd; rw [List.length_append]; omega⟩]
    rw [show fileEnd f0 - heapStart f0.header.max_files = f0.heap.length from by unfold fileEnd; omega]
    rw [List.drop_left, List.take_length]
  have hreadX2 := do_read_orig_eq decode resizeEnc X s2 (freeSlotIndex f0) C hfindX2 hoffX
    (by rw [hoffXval, hszX]; exact hfr s2 hmax2 hheap2)
  rw [hszX] at hreadX2
  have hoffYval : (s2.metadata.getD (freeSlotIndex s1) emptyMetadata).offset.get RES_ORIG = fileEnd f0 := by
    rw [hgY2]
    show (s1.metadata.getD (freeSlotIndex f0) emptyMetadata).offset.get RES_ORIG = fileEnd f0
    rw [hgX1]
    simp only [ResArr.set_orig_eq, ResArr.get_orig_eq]
  have hoffY : ¬ (s2.metadata.getD (freeSlotIndex s1) emptyMetadata).offset.get RES_ORIG = 0 := by
    rw [hoffYval]
    unfold fileEnd
    have := heapStart_pos f0.header.max_files
    omega
  have hszY : (s2.metadata.getD (freeSlotIndex s1) emptyMetadata).size.get RES_ORIG = C.length := by
    rw [hgY2]
    show ((s1.metadata.getD (freeSlotIndex f0) emptyMetadata).size.set RES_ORIG (C.length % U32)).get RES_ORIG = C.length
    simp only [ResArr.set_orig_eq, ResArr.get_orig_eq]
    exact hmod
  have hreadY2 := do_read_orig_eq decode resizeEnc Y s2 (freeSlotIndex s1) C hfindY2 hoffY
    (by rw [hoffYval, hszY]; exact hfr s2 hmax2 hheap2)
  rw [hszY] at hreadY2
  obtain ⟨idx, hfind2, hnumne, hrangeidx, hs3⟩ := do_delete_ok_shape X s2 s3 hdel
  rw [hfindX2] at hfind2
  have hidx : idx = freeSlotIndex f0 := (Option.some.inj hfind2).symm
  subst hidx
  have hmax3 : s3.header.max_files = f0.header.max_files := by rw [hs3]; exact hmax2
  have hheap3 : s3.heap = f0.heap ++ C := by rw [hs3]; exact hheap2
  have hmeta3 : s3.metadata = s2.metadata.set (freeSlotIndex f0) { s2.metadata.getD (freeSlotIndex f0) emptyMetadata with is_valid := 0 } := by rw [hs3]; rfl
  have hg3Y : s3.metadata.getD (freeSlotIndex s1) emptyMetadata = { img_id := Y, sha := hash C, res_orig_w := w, res_orig_h := h, size := (s1.metadata.getD (freeSlotIndex f0) emptyMetadata).size.set RES_ORIG (C.length % U32), offset := (s1.metadata.getD (freeSlotIndex f0) emptyMetadata).offset, is_valid := 1 } := by
    rw [hmeta3, getD_set_ne _ _ _ _ _ hne12]
    exact hgY2
  have hfind3Y : findMetadataIndex Y s3 = some (freeSlotIndex s1) :=
    findMetadataIndex_eq s3 Y (freeSlotIndex s1) (by rw [hmax3]; omega)
      (by rw [hg3Y]; exact one_ne_zero) (by rw [hg3Y])
      (by
        intro j hj hval
        by_cases hji : j = freeSlotIndex f0
        · exfalso
          rw [hji] at hval
          rw [hmeta3, getD_set_self _ _ _ _ hi1len2] at hval
          exact hval rfl
        · rw [hmeta3, getD_set_ne _ _ _ _ _ (fun he => hji he.symm)] at hval ⊢
          rw [hgother2 j hji (by omega)] at hval ⊢
          exact hfreshY _ (getD_mem f0.metadata j emptyMetadata (lt_length_of_getD_valid f0.metadata j hval)) hval)
  have hoffY3val : (s3.metadata.getD (freeSlotIndex s1) emptyMetadata).offset.get RES_ORIG = fileEnd f0 := by
    rw [hg3Y]
    show (s1.metadata.getD (freeSlotIndex f0) emptyMetadata).offset.get RES_ORIG = fileEnd f0
    rw [hgX1]
    simp only [ResArr.set_orig_eq, ResArr.get_orig_eq]
  have hoffY3 : ¬ (s3.metadata.getD (freeSlotIndex s1) emptyMetadata).offset.get RES_ORIG = 0 := by
    rw [hoffY3val]
    unfold fileEnd
    have := heapStart_pos f0.header.max_files
    omega
  have hszY3 : (s3.metadata.getD (freeSlotIndex s1) emptyMetadata).size.get RES_ORIG = C.length := by
    rw [hg3Y]
    show ((s1.metadata.getD (freeSlotIndex f0) emptyMetadata).size.set RES_ORIG (C.length % U32)).get RES_ORIG = C.length
    simp only [ResArr.set_orig_eq, ResArr.get_orig_eq]
    exact hmod
  have hreadY3 := do_read_orig_eq decode resizeEnc Y s3 (freeSlotIndex s1) C hfind3Y hoffY3
    (by rw [hoffY3val, hszY3]; exact hfr s3 hmax3 hheap3)
  rw [hszY3] at hreadY3
  refine ⟨hheap2x, ⟨freeSlotIndex f0, freeSlotIndex s1, hne12, hfindX2, hfindY2, ?_, ?_⟩, hreadX2, hreadY2, hreadY3⟩
  · rw [hgY2, hgX2]
    dsimp only
    rw [hgX1]
  · rw [hgY2, hgX2]
    dsimp only
    rw [hgX1]
    simp [ResArr.set_orig_eq]

theorem content_dedup_lifecycle_witness :
    store2xYdup.heap = store2x.heap ∧
    (∃ iX iY, iX ≠ iY ∧
      findMetadataIndex "x" store2xYdup = some iX ∧ findMetadataIndex "y" store2xYdup = some iY ∧
      (store2xYdup.metadata.getD iY emptyMetadata).offset = (store2xYdup.metadata.getD iX emptyMetadata).offset ∧
      (store2xYdup.metadata.getD iY emptyMetadata).size = (store2xYdup.metadata.getD iX emptyMetadata).size) ∧
    do_read decodeUnit resizeEncUnit "x" RES_ORIG store2xYdup = (.ok, store2xYdup, some [7], 1) ∧
    do_read decodeUnit resizeEncUnit "y" RES_ORIG store2xYdup = (.ok, store2xYdup, some [7], 1) ∧
    do_read decodeUnit resizeEncUnit "y" RES_ORIG store2xYdupDel = (.ok, store2xYdupDel, some [7], 1) :=
  content_dedup_lifecycle hashId getResUnit decodeUnit resizeEncUnit [7] "x" "y"
    store2 store2x store2xYdup store2xYdupDel
    (by decide) (by decide) (by decide) (by decide) (by decide) (by decide) (by decide)
    (by decide) (by decide) (by decide) (by decide) (by decide)

/-- C2 counterexample to the unamended claim: with content of exactly
2^32 bytes the whole scenario goes through — both inserts succeed, the
dedup alias path appends no new bytes for Y and copies X's offset
table, and the delete of X succeeds — but `do_read(Y, RES_ORIG)` then
fails with ERR_IO instead of returning the bytes, because the slot's
`size[RES_ORIG]` was stored as `(uint32_t)image_size = 0` and a
zero-size `fread` fails. -/
theorem content_dedup_truncation_cex :
    hugeContent.length = U32 ∧
    (do_insert hashConst getResUnit hugeContent "x" store2).1 = Err.ok ∧
    (do_insert hashConst getResUnit hugeContent "y" storeHugeX).1 = Err.ok ∧
    storeHugeXY.heap = storeHugeX.heap ∧
    (storeHugeXY.metadata.getD 1 emptyMetadata).offset = (storeHugeXY.metadata.getD 0 emptyMetadata).offset ∧
    (do_delete "x" storeHugeXY).1 = Err.ok ∧
    (do_read decodeUnit resizeEncUnit "y" RES_ORIG storeHugeXYdel).1 = Err.ioErr := by
  have hhc : hugeContent.length = U32 := by simp [hugeContent]
  have hbuf : hugeContent ≠ [] := by
    intro hnil
    rw [hnil] at hhc
    simp [U32] at hhc
  have hsz : hugeContent.length % U32 = 0 := by rw [hhc]; exact Nat.mod_self U32
  have hins1 := do_insert_fresh_ok hashConst getResUnit hugeContent "x" 1 1 store2
    (by decide) (by decide) (by decide) (by decide) hbuf rfl
  rw [hsz, show store2.heap ++ hugeContent = hugeContent from List.nil_append hugeContent] at hins1
  have hX : storeHugeX = insertResult store2 (freeSlotIndex store2) { img_id := "x", sha := hashConst hugeContent, res_orig_w := 1, res_orig_h := 1, size := (store2.metadata.getD (freeSlotIndex store2) emptyMetadata).size.set RES_ORIG 0, offset := (store2.metadata.getD (freeSlotIndex store2) emptyMetadata).offset.set RES_ORIG (fileEnd store2), is_valid := 1 } hugeContent := by
    unfold storeHugeX
    rw [hins1]
  have hins2 := do_insert_alias_unique_of_offset hashConst getResUnit hugeContent "y" 1 1
    (insertResult store2 (freeSlotIndex store2) { img_id := "x", sha := hashConst hugeContent, res_orig_w := 1, res_orig_h := 1, size := (store2.metadata.getD (freeSlotIndex store2) emptyMetadata).size.set RES_ORIG 0, offset := (store2.metadata.getD (freeSlotIndex store2) emptyMetadata).offset.set RES_ORIG (fileEnd store2), is_valid := 1 } hugeContent) 0
    (by decide) (by decide) (by decide) (by decide) (by decide) (by decide) (by decide) rfl
  rw [hsz] at hins2
  have hXY : storeHugeXY = insertResult (insertResult store2 (freeSlotIndex store2) { img_id := "x", sha := hashConst hugeContent, res_orig_w := 1, res_orig_h := 1, size := (store2.metadata.getD (freeSlotIndex store2) emptyMetadata).size.set RES_ORIG 0, offset := (store2.metadata.getD (freeSlotIndex store2) emptyMetadata).offset.set RES_ORIG (fileEnd store2), is_valid := 1 } hugeContent) (freeSlotIndex (insertResult store2 (freeSlotIndex store2) { img_id := "x", sha := hashConst hugeContent, res_orig_w := 1, res_orig_h := 1, size := (store2.metadata.getD (freeSlotIndex store2) emptyMetadata).size.set RES_ORIG 0, offset := (store2.metadata.getD (freeSlotIndex store2) emptyMetadata).offset.set RES_ORIG (fileEnd store2), is_valid := 1 } hugeContent)) { img_id := "y", sha := hashConst hugeContent, res_orig_w := 1, res_orig_h := 1, size := ((insertResult store2 (freeSlotIndex store2) { img_id := "x", sha := hashConst hugeContent, res_orig_w := 1, res_orig_h := 1, size := (store2.metadata.getD (freeSlotIndex store2) emptyMetadata).size.set RES_ORIG 0, offset := (store2.metadata.getD (freeSlotIndex store2) emptyMetadata).offset.set RES_ORIG (fileEnd store2), is_valid := 1 } hugeContent).metadata.getD 0 emptyMetadata).size.set RES_ORIG 0, offset := ((insertResult store2 (freeSlotIndex store2) { img_id := "x", sha := hashConst hugeContent, res_orig_w := 1, res_orig_h := 1, size := (store2.metadata.getD (freeSlotIndex store2) emptyMetadata).size.set RES_ORIG 0, offset := (store2.metadata.getD (freeSlotIndex store2) emptyMetadata).offset.set RES_ORIG (fileEnd store2), is_valid := 1 } hugeContent).metadata.getD 0 emptyMetadata).offset, is_valid := 1 } (insertResult store2 (freeSlotIndex store2) { img_id := "x", sha := hashConst hugeContent, res_orig_w := 1, res_orig_h := 1, size := (store2.metadata.getD (freeSlotIndex store2) emptyMetadata).size.set RES_ORIG 0, offset := (store2.metadata.getD (freeSlotIndex store2) emptyMetadata).offset.set RES_ORIG (fileEnd store2), is_valid := 1 } hugeContent).heap := by
    unfold storeHugeXY
    rw [hX, hins2]
  have hdel := do_delete_eq "x" (insertResult (insertResult store2 (freeSlotIndex store2) { img_id := "x", sha := hashConst hugeContent, res_orig_w := 1, res_orig_h := 1, size := (store2.metadata.getD (freeSlotIndex store2) emptyMetadata).size.set RES_ORIG 0, offset := (store2.metadata.getD (freeSlotIndex store2) emptyMetadata).offset.set RES_ORIG (fileEnd store2), is_valid := 1 } hugeContent) (freeSlotIndex (insertResult store2 (freeSlotIndex store2) { img_id := "x", sha := hashConst hugeContent, res_orig_w := 1, res_orig_h := 1, size := (store2.metadata.getD (freeSlotIndex store2) emptyMetadata).size.set RES_ORIG 0, offset := (store2.metadata.getD (freeSlotIndex store2) emptyMetadata).offset.set RES_ORIG (fileEnd store2), is_valid := 1 } hugeContent)) { img_id := "y", sha := hashConst hugeContent, res_orig_w := 1, res_orig_h := 1, size := ((insertResult store2 (freeSlotIndex store2) { img_id := "x", sha := hashConst hugeContent, res_orig_w := 1, res_orig_h := 1, size := (store2.metadata.getD (freeSlotIndex store2) emptyMetadata).size.set RES_ORIG 0, offset := (store2.metadata.getD (freeSlotIndex store2) emptyMetadata).offset.set RES_ORIG (fileEnd store2), is_valid := 1 } hugeContent).metadata.getD 0 emptyMetadata).size.set RES_ORIG 0, offset := ((insertResult store2 (freeSlotIndex store2) { img_id := "x", sha := hashConst hugeContent, res_orig_w := 1, res_orig_h := 1, size := (store2.metadata.getD (freeSlotIndex store2) emptyMetadata).size.set RES_ORIG 0, offset := (store2.metadata.getD (freeSlotIndex store2) emptyMetadata).offset.set RES_ORIG (fileEnd store2), is_valid := 1 } hugeContent).metadata.getD 0 emptyMetadata).offset, is_valid := 1 } (insertResult store2 (freeSlotIndex store2) { img_id := "x", sha := hashConst hugeContent, res_orig_w := 1, res_orig_h := 1, size := (store2.metadata.getD (freeSlotIndex store2) emptyMetadata).size.set RES_ORIG 0, offset := (store2.metadata.getD (freeSlotIndex store2) emptyMetadata).offset.set RES_ORIG (fileEnd store2), is_valid := 1 } hugeContent).heap) 0 (by decide) (by decide) (by decide)
  have hdelstate : storeHugeXYdel = deleteResultRaw (insertResult (insertResult store2 (freeSlotIndex store2) { img_id := "x", sha := hashConst hugeContent, res_orig_w := 1, res_orig_h := 1, size := (store2.metadata.getD (freeSlotIndex store2) emptyMetadata).size.set RES_ORIG 0, offset := (store2.metadata.getD (freeSlotIndex store2) emptyMetadata).offset.set RES_ORIG (fileEnd store2), is_valid := 1 } hugeContent) (freeSlotIndex (insertResult store2 (freeSlotIndex store2) { img_id := "x", sha := hashConst hugeContent, res_orig_w := 1, res_orig_h := 1, size := (store2.metadata.getD (freeSlotIndex store2) emptyMetadata).size.set RES_ORIG 0, offset := (store2.metadata.getD (freeSlotIndex store2) emptyMetadata).offset.set RES_ORIG (fileEnd store2), is_valid := 1 } hugeContent)) { img_id := "y", sha := hashConst hugeContent, res_orig_w := 1, res_orig_h := 1, size := ((insertResult store2 (freeSlotIndex store2) { img_id := "x", sha := hashConst hugeContent, res_orig_w := 1, res_orig_h := 1, size := (store2.metadata.getD (freeSlotIndex store2) emptyMetadata).size.set RES_ORIG 0, offset := (store2.metadata.getD (freeSlotIndex store2) emptyMetadata).offset.set RES_ORIG (fileEnd store2), is_valid := 1 } hugeContent).metadata.getD 0 emptyMetadata).size.set RES_ORIG 0, offset := ((insertResult store2 (freeSlotIndex store2) { img_id := "x", sha := hashConst hugeContent, res_orig_w := 1, res_orig_h := 1, size := (store2.metadata.getD (freeSlotIndex store2) emptyMetadata).size.set RES_ORIG 0, offset := (store2.metadata.getD (freeSlotIndex store2) emptyMetadata).offset.set RES_ORIG (fileEnd store2), is_valid := 1 } hugeContent).metadata.getD 0 emptyMetadata).offset, is_valid := 1 } (insertResult store2 (freeSlotIndex store2) { img_id := "x", sha := hashConst hugeContent, res_orig_w := 1, res_orig_h := 1, size := (store2.metadata.getD (freeSlotIndex store2) emptyMetadata).size.set RES_ORIG 0, offset := (store2.metadata.getD (freeSlotIndex store2) emptyMetadata).offset.set RES_ORIG (fileEnd store2), is_valid := 1 } hugeContent).heap) 0 := by
    unfold storeHugeXYdel
    rw [hXY, hdel]
  refine ⟨hhc, by rw [hins1], by rw [hX, hins2], ?_, ?_, ?_, ?_⟩
  · rw [hXY, hX]
    rfl
  · rw [hXY]
    decide
  · rw [hXY, hdel]
  · rw [hdelstate, do_read_zero_size decodeUnit resizeEncUnit "y" (deleteResultRaw (insertResult (insertResult store2 (freeSlotIndex store2) { img_id := "x", sha := hashConst hugeContent, res_orig_w := 1, res_orig_h := 1, size := (store2.metadata.getD (freeSlotIndex store2) emptyMetadata).size.set RES_ORIG 0, offset := (store2.metadata.getD (freeSlotIndex store2) emptyMetadata).offset.set RES_ORIG (fileEnd store2), is_valid := 1 } hugeContent) (freeSlotIndex (insertResult store2 (freeSlotIndex store2) { img_id := "x", sha := hashConst hugeContent, res_orig_w := 1, res_orig_h := 1, size := (store2.metadata.getD (freeSlotIndex store2) emptyMetadata).size.set RES_ORIG 0, offset := (store2.metadata.getD (freeSlotIndex store2) emptyMetadata).offset.set RES_ORIG (fileEnd store2), is_valid := 1 } hugeContent)) { img_id := "y", sha := hashConst hugeContent, res_orig_w := 1, res_orig_h := 1, size := ((insertResult store2 (freeSlotIndex store2) { img_id := "x", sha := hashConst hugeContent, res_orig_w := 1, res_orig_h := 1, size := (store2.metadata.getD (freeSlotIndex store2) emptyMetadata).size.set RES_ORIG 0, offset := (store2.metadata.getD (freeSlotIndex store2) emptyMetadata).offset.set RES_ORIG (fileEnd store2), is_valid := 1 } hugeContent).metadata.getD 0 emptyMetadata).size.set RES_ORIG 0, offset := ((insertResult store2 (freeSlotIndex store2) { img_id := "x", sha := hashConst hugeContent, res_orig_w := 1, res_orig_h := 1, size := (store2.metadata.getD (freeSlotIndex store2) emptyMetadata).size.set RES_ORIG 0, offset := (store2.metadata.getD (freeSlotIndex store2) emptyMetadata).offset.set RES_ORIG (fileEnd store2), is_valid := 1 } hugeContent).metadata.getD 0 emptyMetadata).offset, is_valid := 1 } (insertResult store2 (freeSlotIndex store2) { img_id := "x", sha := hashConst hugeContent, res_orig_w := 1, res_orig_h := 1, size := (store2.metadata.getD (freeSlotIndex store2) emptyMetadata).size.set RES_ORIG 0, offset := (store2.metadata.getD (freeSlotIndex store2) emptyMetadata).offset.set RES_ORIG (fileEnd store2), is_valid := 1 } hugeContent).heap) 0) 1
      (by decide) (by decide) (by decide)]

end ImgStore
